import Mathlib

/-!
# Verification of the probe-rs debug core (`src/probe-rs/src/debug/mod.rs`)

A shallow embedding of the DWARF-based debug engine:

* the call-stack unwinder (`StackFrameIterator::next`): CFA computation,
  CFI register-rule application, stack-frame production and the next-PC
  advance;
* the stack-frame builder (`DebugInfo::get_stackframe_info`);
* the breakpoint resolver (`DebugInfo::get_breakpoint_location`);
* the source-location resolver (`DebugInfo::get_source_location`);
* the expression-evaluator bridge (`UnitInfo::expr_to_piece`);
* the variant-part splicing step of `UnitInfo::process_tree`.

Machine integers (`u32`, `u64`) are modelled as `Nat` with explicit
`% 2^32` / `% 2^64` wrapping where the Rust code casts or can overflow.
Fallible target accesses are modelled as `Option`-valued functions
(`none` = transport failure); Rust panics (`unwrap` on a failed read,
`unimplemented!`, `todo!`) are modelled as fatal `Except.error` outcomes,
since either way they abort the step in progress.
-/

namespace ProbeRs

/-- A 32-bit word: the reduction `x % 2 ^ 32` of an `Int`, as performed by
Rust's `as u32` cast (two's-complement truncation). -/
def wrap32 (x : Int) : Nat := (x % (2 ^ 32 : Int)).toNat

/-- The Cortex-M register file from `Registers([Option<u32>; 16])`:
16 slots of optional 32-bit values. -/
def Registers := Fin 16 → Option Nat

instance : DecidableEq Registers := inferInstanceAs (DecidableEq (Fin 16 → Option Nat))

/-- Functional update of one register slot (the effect of
`self.registers[i] = v`). -/
def updateReg (regs : Registers) (i : Fin 16) (v : Option Nat) : Registers :=
  fun j => if j = i then v else regs j

/-- Target memory as a byte-read interface: `mem a = none` models a failed
transport read at address `a` (the `core.read_8` collaborator). -/
def Mem := Nat → Option Nat

/-- `core.read_8(addr, &mut buff)` with a 4-byte buffer followed by
`u32::from_le_bytes(buff)`: four consecutive byte reads decoded
little-endian. A failure of any byte models a failed `read_8` call. -/
def readWord (mem : Mem) (addr : Nat) : Option Nat := do
  let b0 ← mem addr
  let b1 ← mem (addr + 1)
  let b2 ← mem (addr + 2)
  let b3 ← mem (addr + 3)
  pure (b0 + b1 * 256 + b2 * 65536 + b3 * 16777216)

/-- The CFI register rules the unwinder distinguishes
(`gimli::read::RegisterRule`): the `_ => unimplemented!()` catch-all of
`StackFrameIterator::next` is `unsupported`. -/
inductive RegisterRule where
  | undefined
  | sameValue
  | offset (o : Int)
  | unsupported
deriving DecidableEq

/-- Fatal conditions (Rust panics) inside one unwind step. -/
inductive UnwindFatal where
  | readFailed
  | unimplementedRule
  | cfaExpression
  | badCfaRegister
deriving DecidableEq

/-- One iteration of the register-restoration loop of
`StackFrameIterator::next` (the `self.registers[i] = match register_rule`
arm), for slot `i` whose current value is `old`:

* `Undefined`: callee-saved slots 4,5,6,7,8,10,11,14 keep `old`; slot 15
  becomes the current `pc` (`pc as u32`); every other slot is cleared;
* `SameValue`: keeps `old`;
* `Offset(o)`: reads 4 bytes little-endian at `CFA + o` (cast `as u32`);
  a failed read is a panic (`unwrap`), hence fatal;
* anything else: `unimplemented!()`, fatal. -/
def applyRegisterRule (pc cfa : Nat) (mem : Mem) (rule : RegisterRule)
    (old : Option Nat) (i : Fin 16) : Except UnwindFatal (Option Nat) :=
  match rule with
  | .undefined =>
      .ok (if i.val = 4 ∨ i.val = 5 ∨ i.val = 6 ∨ i.val = 7 ∨ i.val = 8 ∨
              i.val = 10 ∨ i.val = 11 ∨ i.val = 14 then old
           else if i.val = 15 then some (pc % 2 ^ 32)
           else none)
  | .sameValue => .ok old
  | .offset o =>
      match readWord mem (wrap32 ((cfa : Int) + o)) with
      | some v => .ok (some v)
      | none => .error .readFailed
  | .unsupported => .error .unimplementedRule

/-- One step of the `for i in 0..16` loop: slot 13 (the CFA slot) is
skipped (`continue`); every other slot is rewritten by its rule. -/
def stepReg (rules : Fin 16 → RegisterRule) (pc cfa : Nat) (mem : Mem)
    (regs : Registers) (i : Fin 16) : Except UnwindFatal Registers :=
  if i.val = 13 then .ok regs
  else (applyRegisterRule pc cfa mem (rules i) (regs i) i).map (updateReg regs i)

/-- The whole register-restoration loop (`mod.rs` lines 274–311): slots
0,…,15 in order, slot 13 skipped. -/
def applyRegisterRules (rules : Fin 16 → RegisterRule) (regs : Registers)
    (pc cfa : Nat) (mem : Mem) : Except UnwindFatal Registers :=
  (List.finRange 16).foldlM (stepReg rules pc cfa mem) regs

/-! ## Source/Breakpoint Resolver data model -/

/-- `ColumnType` (mirroring `gimli::ColumnType`): either the left edge of a
line or a concrete column number. The derived Rust ordering places
`LeftEdge` below every `Column`. -/
inductive ColType where
  | leftEdge
  | column (c : Nat)
deriving DecidableEq

/-- Strict order on columns, as produced by the derived `Ord` on
`gimli::ColumnType`. -/
def colLt : ColType → ColType → Bool
  | .leftEdge, .leftEdge => false
  | .leftEdge, .column _ => true
  | .column _, .leftEdge => false
  | .column a, .column b => a < b

/-- The breakpoint comparator of `get_breakpoint_location`:
`if a.1 != b.1 { a.1.cmp(&b.1) } else { a.0.cmp(&b.0) }` — lexicographic by
(column, then address), as a total boolean `≤`. Candidates are
(address, column) pairs. -/
def locLe (a b : Nat × ColType) : Bool :=
  colLt a.2 b.2 || (a.2 = b.2 && a.1 ≤ b.1)

/-- The conversion of a requested column number to a `ColumnType`
(`NonZeroU64::new(search_col)`: 0 becomes `LeftEdge`). -/
def requestedCol (searchCol : Nat) : ColType :=
  if searchCol = 0 then .leftEdge else .column searchCol

/-- The candidate walk of `get_breakpoint_location`: sorted candidates are
scanned in order, stopping at the first whose column exceeds the request,
and the tracked best candidate is replaced whenever a strictly larger
column is seen. -/
def walkBest (sc : ColType) (best : Nat × ColType) :
    List (Nat × ColType) → Nat × ColType
  | [] => best
  | l :: ls =>
    if colLt sc l.2 then best
    else if colLt best.2 l.2 then walkBest sc l ls
    else walkBest sc best ls

/-- `DebugInfo::get_breakpoint_location` after candidate collection
(`mod.rs` lines 628–674): `locations` is the list of (address, column)
pairs whose resolved path and line matched the query, in row order. -/
def getBreakpointLocation (locations : List (Nat × ColType))
    (column : Option Nat) : Option Nat :=
  match locations with
  | [] => none
  | [l] => some l.1
  | _ =>
    let sorted := locations.mergeSort locLe
    match column with
    | some searchCol =>
      match sorted with
      | [] => none
      | best :: rest => some (walkBest (requestedCol searchCol) best rest).1
    | none => sorted.head?.map Prod.fst

/-- `SourceLocation` from `mod.rs`: everything optional. -/
structure SourceLocation where
  line : Option Nat
  column : Option ColType
  file : Option String
  directory : Option String
deriving DecidableEq

/-- One row of a line-number program, with its file/directory attributes
already resolved to strings (the code resolves them through
`attr_string` at return time). -/
structure LineRow where
  address : Nat
  line : Option Nat
  column : ColType
  file : String
  directory : String
deriving DecidableEq

/-- The `SourceLocation` built from a line row by `get_source_location`. -/
def rowLoc (r : LineRow) : SourceLocation :=
  { line := r.line, column := some r.column,
    file := some r.file, directory := some r.directory }

/-- One sequence of a line-number program (`gimli`'s `sequences()`):
a half-open address range `[start, stop)` plus its rows in emission
order. -/
structure LineSequence where
  start : Nat
  stop : Nat
  rows : List LineRow
deriving DecidableEq

/-- A subprogram / inlined-subroutine DIE as the frame builder consumes
it: an optional `DW_AT_name` (resolved string) and its address ranges. -/
structure FunctionDie where
  name : Option String
  ranges : List (Nat × Nat)
deriving DecidableEq

/-- A compile unit: its range list, its optional line-number program
(the sequences), and its subprogram/inlined-subroutine DIEs in DFS
pre-order. -/
structure CompUnit where
  ranges : List (Nat × Nat)
  lineProgram : Option (List LineSequence)
  functions : List FunctionDie
deriving DecidableEq

/-- The row scan of `get_source_location` (`mod.rs` lines 442–493):
an exact address match returns that row; a row above the target returns
the previous row if one exists; otherwise the row becomes the previous
row and the scan continues. `none` = the scan fell through. -/
def scanRows (addr : Nat) (prev : Option LineRow) : List LineRow → Option LineRow
  | [] => none
  | r :: rs =>
    if r.address = addr then some r
    else if addr < r.address ∧ prev.isSome then prev
    else scanRows addr (some r) rs

/-- Outcome of processing one matching unit range in
`get_source_location`: a result, an early `return None` (missing line
program or no sequence containing the address), or falling through to
the remaining ranges and units. -/
inductive LookupOutcome where
  | found (loc : SourceLocation)
  | abort
  | fallthrough
deriving DecidableEq

/-- The body of the `if (range.begin <= address) && (address < range.end)`
block of `get_source_location`: missing line program → `return None`;
no sequence containing the address → `return None` (the `?` operator);
otherwise scan the sequence's rows. -/
def processUnit (u : CompUnit) (addr : Nat) : LookupOutcome :=
  match u.lineProgram with
  | none => .abort
  | some seqs =>
    match seqs.find? (fun s => s.start ≤ addr && addr < s.stop) with
    | none => .abort
    | some seq =>
      match scanRows addr none seq.rows with
      | some r => .found (rowLoc r)
      | none => .fallthrough

/-- The `while let Ok(Some(range)) = ranges.next()` loop: each range
containing the address runs `processUnit`; a fall-through continues with
the remaining ranges. -/
def scanRanges (u : CompUnit) (addr : Nat) : List (Nat × Nat) → LookupOutcome
  | [] => .fallthrough
  | (b, e) :: rest =>
    if b ≤ addr ∧ addr < e then
      match processUnit u addr with
      | .fallthrough => scanRanges u addr rest
      | out => out
    else scanRanges u addr rest

/-- `DebugInfo::get_source_location` (`mod.rs` lines 405–498) over the
unit list: units are scanned in storage order; `abort` is the early
`return None`. -/
def getSourceLocation (units : List CompUnit) (addr : Nat) : Option SourceLocation :=
  match units with
  | [] => none
  | u :: rest =>
    match scanRanges u addr u.ranges with
    | .found loc => some loc
    | .abort => none
    | .fallthrough => getSourceLocation rest addr

/-! ## Variable data model and variant-part splicing -/

/-- Modelled from the spec: `VariableKind` lives in the crate's
`debug/variable.rs`, which is not part of the sources at hand; the spec
gives the kinds as Normal and Referenced. -/
inductive VariableKind where
  | normal
  | referenced
deriving DecidableEq

/-- `VariantRole` as used by `process_tree` for tagged-union decoding. -/
inductive VariantRole where
  | nonVariant
  | variant (discriminant : Nat)
  | variantPart (discriminant : Nat)
deriving DecidableEq

/-- The `Variable` tree node. The field set follows the spec's data
model (the struct itself lives in the absent `debug/variable.rs`):
name, display value, type name, byte size, memory location, kind,
variant role, optional ordered children. -/
inductive Variable where
  | mk (name value typeName : String) (byteSize memoryLocation : Nat)
      (kind : VariableKind) (role : VariantRole)
      (children : Option (List Variable))

def Variable.name : Variable → String
  | .mk n _ _ _ _ _ _ _ => n

def Variable.value : Variable → String
  | .mk _ v _ _ _ _ _ _ => v

def Variable.role : Variable → VariantRole
  | .mk _ _ _ _ _ _ r _ => r

def Variable.children : Variable → Option (List Variable)
  | .mk _ _ _ _ _ _ _ cs => cs

/-- Modelled from the spec: `Variable::add_child_variable` (in the absent
`debug/variable.rs`) appends a child, insertion order = DWARF child
order; `None` children become a one-element list. -/
def addChildVariable : Variable → Variable → Variable
  | .mk n v t b m k r cs, c => .mk n v t b m k r (some (cs.getD [] ++ [c]))

/-- A variable's children as a list (`None` and the empty list are
treated identically by consumers, per the spec). -/
def childrenList (v : Variable) : List Variable := v.children.getD []

/-- One iteration of the grand-child loop in `process_tree`'s
`DW_TAG_variant_part` arm: a grandchild with role `Variant(d)` matching
the parent's `VariantPart(d)` role has its children appended to the
parent; everything else leaves the parent unchanged. -/
def spliceStep (par gc : Variable) : Variable :=
  match gc.role with
  | .variant d =>
    if par.role = .variantPart d then
      match gc.children with
      | some activeChildren => activeChildren.foldl addChildVariable par
      | none => par
    else par
  | _ => par

/-- The variant-splicing step of `process_tree`'s `DW_TAG_variant_part`
arm (`mod.rs` lines 1011–1023): for each grandchild of the hidden
variant-part node whose role is `Variant(d)` with `d` equal to the
parent's `VariantPart` discriminant, append that grandchild's children
to the real parent variable. -/
def spliceVariantPart (parent : Variable) (grandChildren : Option (List Variable)) :
    Variable :=
  match grandChildren with
  | none => parent
  | some gcs => gcs.foldl spliceStep parent

/-! ## Stack-frame construction -/

/-- The typed failure taxonomy of `DebugError` (shape only; the payloads
are diagnostics irrelevant to control flow). -/
inductive DebugError where
  | io
  | debugData
  | parse
  | nonUtf8
  | probe
  | conversion
deriving DecidableEq

/-- `StackFrame` from `mod.rs`. -/
structure StackFrame where
  id : Nat
  functionName : String
  sourceLocation : Option SourceLocation
  registers : Registers
  pc : Nat
  frameVariables : List Variable  -- `variables` is a reserved word in Lean

/-- The synthetic function name `format!("<unknown_function_{}>", frame_count)`. -/
def unknownFunctionName (frameCount : Nat) : String :=
  "<unknown_function_" ++ toString frameCount ++ ">"

/-- `UnitInfo::get_function_die` lifted over the unit loop of
`get_stackframe_info`: the first subprogram/inlined-subroutine DIE (in
unit order, then DFS pre-order) whose ranges contain the address. -/
def findFunctionDie (units : List CompUnit) (addr : Nat) : Option FunctionDie :=
  units.findSome?
    (fun u => u.functions.find? (fun f => f.ranges.any (fun r => r.1 ≤ addr && addr < r.2)))

/-- `DebugInfo::get_stackframe_info` (`mod.rs` lines 516–556).
`getVars` abstracts `UnitInfo::get_function_variables` (the DIE walker),
receiving the function DIE, the frame base
(`registers.get_call_frame_address().unwrap_or(0)`) and the program
counter (`registers.get_frame_program_counter().unwrap_or(0)`); its
failure propagates. When no function DIE matches, a synthetic frame is
returned with `id = frame_count` and no variables. -/
def getStackframeInfo
    (getVars : FunctionDie → Nat → Nat → Except DebugError (List Variable))
    (units : List CompUnit) (addr frameCount : Nat) (registers : Registers) :
    Except DebugError StackFrame :=
  match findFunctionDie units addr with
  | some die =>
    match getVars die (((registers 13).getD 0)) (((registers 15).getD 0)) with
    | .error e => .error e
    | .ok vars =>
      .ok { id := (registers 13).getD 0
            functionName := die.name.getD (unknownFunctionName frameCount)
            sourceLocation := getSourceLocation units addr
            registers := registers
            pc := addr % 2 ^ 32
            frameVariables := vars }
  | none =>
    .ok { id := frameCount
          functionName := unknownFunctionName frameCount
          sourceLocation := getSourceLocation units addr
          registers := registers
          pc := addr % 2 ^ 32
          frameVariables := [] }

/-! ## The stack-frame iterator -/

/-- The CFA rules the unwinder distinguishes (`gimli::CfaRule`). -/
inductive CfaRule where
  | registerAndOffset (reg : Nat) (offset : Int)
  | expression
deriving DecidableEq

/-- One unwind-table row: the CFA rule and the per-register rules. -/
structure UnwindInfoRow where
  cfa : CfaRule
  rules : Fin 16 → RegisterRule

/-- The mutable state of `StackFrameIterator`. -/
structure UnwindState where
  frameCount : Nat
  pc : Option Nat
  registers : Registers

/-- Outcome of one `next()` call: a Rust panic (`unimplemented!`, a
failed `unwrap`, an out-of-bounds register index), or a returned
`Option<StackFrame>` together with the successor iterator state. -/
inductive NextResult where
  | fatal
  | result (frame : Option StackFrame) (st : UnwindState)

/-- The next-PC advance `self.registers[14].map(|pc| u64::from(pc & !1) - 1)`:
clear the Thumb bit, then an unsigned 64-bit subtraction of one
(wrapping two's-complement semantics). -/
def advanceLr (lr : Nat) : Nat := ((lr &&& 0xFFFFFFFE) + (2 ^ 64 - 1)) % 2 ^ 64

/-- The tail of `StackFrameIterator::next` once the registers have been
restored and the CFA stored into slot 13 (`regs2`): build the frame (a
builder failure is logged and yields `None` while the state still
advances), bump the frame count, and advance the PC from slot 14. -/
def finishStep (getVars : FunctionDie → Nat → Nat → Except DebugError (List Variable))
    (units : List CompUnit) (pc frameCount : Nat) (regs2 : Registers) : NextResult :=
  match getStackframeInfo getVars units pc frameCount regs2 with
  | .ok f =>
    .result (some f)
      { frameCount := frameCount + 1
        pc := (regs2 14).map advanceLr
        registers := regs2 }
  | .error _ =>
    .result none
      { frameCount := frameCount + 1
        pc := (regs2 14).map advanceLr
        registers := regs2 }

/-- `StackFrameIterator::next` (`mod.rs` lines 220–338).
`uw` models `unwind_info_for_address` (`none` = no CFI for the PC),
`mem` the live target memory, `getVars`/`units` feed the frame builder. -/
def iterNext (uw : Nat → Option UnwindInfoRow) (mem : Mem)
    (getVars : FunctionDie → Nat → Nat → Except DebugError (List Variable))
    (units : List CompUnit) (st : UnwindState) : NextResult :=
  match st.pc with
  | none => .result none st
  | some pc =>
    match uw pc with
    | none => .result none st
    | some info =>
      match info.cfa with
      | .expression => .fatal
      | .registerAndOffset reg offset =>
        if h : reg < 16 then
          match st.registers ⟨reg, h⟩ with
          | none => .result none st
          | some regVal =>
            match applyRegisterRules info.rules st.registers pc
                (wrap32 ((regVal : Int) + offset)) mem with
            | .error _ => .fatal
            | .ok regs1 =>
              finishStep getVars units pc st.frameCount
                (updateReg regs1 13 (some (wrap32 ((regVal : Int) + offset))))
        else .fatal

/-! ## Expression Evaluator Bridge -/

/-- The `gimli::Value` variants the bridge produces on resumption. -/
inductive GimliValue where
  | u8 (v : Nat)
  | u16 (v : Nat)
  | u32 (v : Nat)
  | generic (v : Nat)
deriving DecidableEq

/-- The suspension states of a `gimli::Evaluation` the bridge handles;
everything else hits the `todo!` catch-all. -/
inductive EvalStatus where
  | complete
  | requiresMemory (addr : Nat) (size : Nat)
  | requiresFrameBase
  | requiresRegister (reg : Nat) (baseType : Nat)
  | unsupported
deriving DecidableEq

/-- A DWARF expression piece location (only the shape matters to the
bridge loop). -/
inductive PieceLocation where
  | empty
  | address (a : Nat)
  | value (v : GimliValue)
  | register (r : Nat)
deriving DecidableEq

/-- The location-expression interpreter as an abstract suspend/resume
machine over an opaque interpreter-state type `σ` (the `gimli`
`Evaluation` the bridge drives; its internals are external library
code). -/
structure Evaluation (σ : Type) where
  status : σ → EvalStatus
  resumeMemory : σ → GimliValue → σ
  resumeFrameBase : σ → Nat → σ
  resumeRegister : σ → GimliValue → σ
  result : σ → List PieceLocation

/-- `core.read_8(addr as u32, &mut buff)` with an `n`-byte buffer: one
live target read yielding `n` bytes, failing if the transport fails. -/
def readBytes (mem : Mem) (addr n : Nat) : Option (List Nat) :=
  (List.range n).mapM (fun k => mem (addr + k))

/-- Fatal conditions inside `expr_to_piece`: a panicking memory read
(`expect`), an unsupported request size (`todo!`), a failed register
read (`?` on `DebugError`), typed registers (`todo!`), and the
catch-all `todo!`. -/
inductive BridgeFatal where
  | memReadFailed
  | unsupportedMemSize
  | registerReadFailed
  | typedRegisterUnimplemented
  | unsupportedRequest
deriving DecidableEq

/-- One iteration of the `expr_to_piece` loop (`mod.rs` lines 773–822):
`ok (none, log)` = the evaluation completed (`break`); `ok (some s', log)`
= resumed interpreter state, where `log` lists the (address, size) live
memory reads performed. Memory requests of size 1/2/4 are served by one
read of that many bytes, the 2- and 4-byte values assembled
big-endian (first byte read is most significant). -/
def bridgeStep {σ : Type} (ev : Evaluation σ) (mem : Mem) (readReg : Nat → Option Nat)
    (frameBase : Nat) (s : σ) : Except BridgeFatal (Option σ × List (Nat × Nat)) :=
  match ev.status s with
  | .complete => .ok (none, [])
  | .requiresMemory addr size =>
    match readBytes mem (addr % 2 ^ 32) size with
    | none => .error .memReadFailed
    | some buff =>
      match size, buff with
      | 1, [b0] => .ok (some (ev.resumeMemory s (.u8 b0)), [(addr % 2 ^ 32, 1)])
      | 2, [b0, b1] =>
        .ok (some (ev.resumeMemory s (.u16 ((b0 <<< 8) ||| b1))), [(addr % 2 ^ 32, 2)])
      | 4, [b0, b1, b2, b3] =>
        .ok (some (ev.resumeMemory s
              (.u32 ((b0 <<< 24) ||| (b1 <<< 16) ||| (b2 <<< 8) ||| b3))),
            [(addr % 2 ^ 32, 4)])
      | _, _ => .error .unsupportedMemSize
  | .requiresFrameBase => .ok (some (ev.resumeFrameBase s frameBase), [])
  | .requiresRegister reg baseType =>
    match readReg reg with
    | none => .error .registerReadFailed
    | some raw =>
      if baseType ≠ 0 then .error .typedRegisterUnimplemented
      else .ok (some (ev.resumeRegister s (.generic raw)), [])
  | .unsupported => .error .unsupportedRequest

/-- The full `expr_to_piece` driver loop, with explicit fuel (the source
loop's termination depends on the interpreter; fuel exhaustion is an
embedding artifact reported as the catch-all fatal case). -/
def exprToPiece {σ : Type} (ev : Evaluation σ) (mem : Mem) (readReg : Nat → Option Nat)
    (frameBase : Nat) : Nat → σ → Except BridgeFatal (List PieceLocation × List (Nat × Nat))
  | 0, _ => .error .unsupportedRequest
  | fuel + 1, s =>
    match bridgeStep ev mem readReg frameBase s with
    | .error e => .error e
    | .ok (none, log) => .ok (ev.result s, log)
    | .ok (some s', log) =>
      match exprToPiece ev mem readReg frameBase fuel s' with
      | .error e => .error e
      | .ok (pieces, log') => .ok (pieces, log ++ log')

/-- Non-strict column order (companion to `colLt`, used only to state
properties). -/
def colLe : ColType → ColType → Bool
  | .leftEdge, _ => true
  | .column _, .leftEdge => false
  | .column a, .column b => a ≤ b

/-! ## Concrete inputs for witnesses and counterexamples -/

/-- A placeholder frame (only used to totalise result extraction). -/
def defaultFrame : StackFrame :=
  { id := 0, functionName := "", sourceLocation := none,
    registers := fun _ => none, pc := 0, frameVariables := [] }

/-- Extract the yielded frame of a `NextResult` (placeholder otherwise). -/
def frameOf (r : NextResult) : StackFrame :=
  match r with
  | .result (some f) _ => f
  | _ => defaultFrame

/-- Extract the successor state of a `NextResult` (dummy state on panic). -/
def stateOf (r : NextResult) : UnwindState :=
  match r with
  | .result _ st => st
  | .fatal => { frameCount := 0, pc := none, registers := fun _ => none }

/-- Extract the frame of a successful frame-builder result. -/
def okFrameOf (r : Except DebugError StackFrame) : StackFrame :=
  match r with
  | .ok f => f
  | .error _ => defaultFrame

def w1rules : Fin 16 → RegisterRule := fun j =>
  if j.val = 0 then .sameValue else if j.val = 1 then .offset 0 else .undefined

def w1regs : Registers := fun _ => some 7

def w1mem : Mem := fun a => some (a % 256)

/-- Extract the registers of a successful rule application (dummy file on
failure; only used to totalise extraction for witnesses). -/
def okRegsOf (r : Except UnwindFatal Registers) : Registers :=
  match r with
  | .ok rs => rs
  | .error _ => fun _ => none

/-- The actual register file produced by the register-rule loop on the
witness inputs. -/
def w1out : Registers := okRegsOf (applyRegisterRules w1rules w1regs 100 5 w1mem)

/-- Rule set with a failing memory-offset rule (slot 0) and an
unimplemented rule (slot 1), for the fatal cases. -/
def w1rulesBad : Fin 16 → RegisterRule := fun j =>
  if j.val = 0 then .offset 0 else if j.val = 1 then .unsupported else .undefined

/-- A target whose memory reads always fail. -/
def w1memBad : Mem := fun _ => none

def c2uw : Nat → Option UnwindInfoRow := fun a =>
  if a = 100 then
    some { cfa := .registerAndOffset 13 0,
           rules := fun j => if j.val = 14 then .offset 0 else .undefined }
  else none

def c2mem : Mem := fun a => if a = 1000 then some 8 else some 0

def noVars : FunctionDie → Nat → Nat → Except DebugError (List Variable) :=
  fun _ _ _ => .ok []

def c2st : UnwindState :=
  { frameCount := 0, pc := some 100,
    registers := fun j => if j.val = 13 then some 1000 else none }

def c2run : NextResult := iterNext c2uw c2mem noVars [] c2st

def c2fr : StackFrame := frameOf c2run

def c2next : UnwindState := stateOf c2run

def vA : Variable := .mk "a" "" "" 0 0 .normal .nonVariant none

def vB : Variable := .mk "b" "" "" 0 0 .normal .nonVariant none

def gc1 : Variable := .mk "gc1" "" "" 0 0 .normal (.variant 2) (some [vA])

def gc2 : Variable := .mk "gc2" "" "" 0 0 .normal (.variant 2) (some [vB])

def cexParent : Variable := .mk "parent" "" "" 0 0 .normal (.variantPart 2) none

def w3ev : Evaluation Nat :=
  { status := fun s => if s = 0 then .requiresMemory 10 2 else .complete
    resumeMemory := fun _ _ => 1
    resumeFrameBase := fun s _ => s
    resumeRegister := fun s _ => s
    result := fun _ => [] }

def w3mem : Mem := fun a => some (a + 1)

def w5locs : List (Nat × ColType) :=
  [(30, .column 5), (10, .column 2), (20, .column 2)]

def w6row1 : LineRow :=
  { address := 10, line := some 3, column := .column 1, file := "main.rs", directory := "/src" }

def w6row2 : LineRow :=
  { address := 20, line := some 4, column := .column 1, file := "main.rs", directory := "/src" }

def w6unit : CompUnit :=
  { ranges := [(0, 100)]
    lineProgram := some [{ start := 0, stop := 100, rows := [w6row1, w6row2] }]
    functions := [] }

def c7uw : Nat → Option UnwindInfoRow := fun _ =>
  some { cfa := .registerAndOffset 13 0, rules := fun _ => .undefined }

def c7st : UnwindState :=
  { frameCount := 7, pc := some 50,
    registers := fun j => if j.val = 13 then some 100 else none }

def c7fr : StackFrame := frameOf (iterNext c7uw (fun _ => none) noVars [] c7st)

def w7unit : CompUnit :=
  { ranges := [], lineProgram := none,
    functions := [{ name := some "f", ranges := [(0, 10)] }] }

def w7regs : Registers := fun j => if j.val = 13 then some 42 else none

def w7fr : StackFrame := okFrameOf (getStackframeInfo noVars [w7unit] 5 3 w7regs)

def w10unit : CompUnit :=
  { ranges := [(0, 10)], lineProgram := none, functions := [] }

lemma exceptBind_error {ε α β : Type} (e : ε) (f : α → Except ε β) :
    (Except.error e >>= f) = Except.error e := rfl

lemma exceptBind_ok {ε α β : Type} (a : α) (f : α → Except ε β) :
    (Except.ok a >>= f) = f a := rfl

lemma exceptMap_error {ε α β : Type} (e : ε) (f : α → β) :
    (Except.error e : Except ε α).map f = Except.error e := rfl

lemma exceptMap_ok {ε α β : Type} (a : α) (f : α → β) :
    (Except.ok a : Except ε α).map f = Except.ok (f a) := rfl

/-- A slot not processed by a (partial) restoration loop keeps its value. -/
lemma foldl_stepReg_not_mem {rules : Fin 16 → RegisterRule} {pc cfa : Nat} {mem : Mem} :
    ∀ (l : List (Fin 16)) (rs regs' : Registers),
      l.foldlM (stepReg rules pc cfa mem) rs = .ok regs' →
      ∀ i : Fin 16, i ∉ l → regs' i = rs i := by
  intro l
  induction l with
  | nil =>
    intro rs regs' h i _
    simp only [List.foldlM_nil] at h
    cases h; rfl
  | cons j l' ih =>
    intro rs regs' h i hi
    simp only [List.foldlM_cons] at h
    cases hstep : stepReg rules pc cfa mem rs j with
    | error e => rw [hstep, exceptBind_error] at h; exact Except.noConfusion h
    | ok rs1 =>
      rw [hstep, exceptBind_ok] at h
      have hne : i ≠ j := fun hij => hi (hij ▸ List.mem_cons_self j l')
      have hl' : i ∉ l' := fun hmem => hi (List.mem_cons_of_mem j hmem)
      have h1 : rs1 i = rs i := by
        unfold stepReg at hstep
        by_cases h13 : j.val = 13
        · simp only [h13, if_pos rfl] at hstep; cases hstep; rfl
        · simp only [if_neg h13] at hstep
          cases happ : applyRegisterRule pc cfa mem (rules j) (rs j) j with
          | error e =>
            rw [happ, exceptMap_error] at hstep; exact Except.noConfusion hstep
          | ok v =>
            rw [happ, exceptMap_ok] at hstep
            cases hstep
            simp [updateReg, hne]
      rw [ih rs1 regs' h i hl', h1]

/-- For a slot `i ≠ 13` processed by the loop (indices pairwise distinct),
the final value is exactly the rule applied to the slot's original value. -/
lemma foldl_stepReg_mem {rules : Fin 16 → RegisterRule} {pc cfa : Nat} {mem : Mem} :
    ∀ (l : List (Fin 16)) (rs regs' : Registers),
      l.Nodup →
      l.foldlM (stepReg rules pc cfa mem) rs = .ok regs' →
      ∀ i ∈ l, i.val ≠ 13 →
        applyRegisterRule pc cfa mem (rules i) (rs i) i = .ok (regs' i) := by
  intro l
  induction l with
  | nil => intro rs regs' _ _ i hi; exact absurd hi (List.not_mem_nil i)
  | cons j l' ih =>
    intro rs regs' hnodup h i hi h13
    obtain ⟨hjl', hnodup'⟩ := List.nodup_cons.mp hnodup
    simp only [List.foldlM_cons] at h
    cases hstep : stepReg rules pc cfa mem rs j with
    | error e => rw [hstep, exceptBind_error] at h; exact Except.noConfusion h
    | ok rs1 =>
      rw [hstep, exceptBind_ok] at h
      rcases List.mem_cons.mp hi with hij | hil'
      · subst hij
        unfold stepReg at hstep
        simp only [if_neg h13] at hstep
        cases happ : applyRegisterRule pc cfa mem (rules i) (rs i) i with
        | error e =>
          rw [happ, exceptMap_error] at hstep; exact Except.noConfusion hstep
        | ok v =>
          rw [happ, exceptMap_ok] at hstep
          cases hstep
          have hfin : regs' i = updateReg rs i v i := foldl_stepReg_not_mem l' _ _ h i hjl'
          rw [hfin]
          simp [updateReg]
      · have h1 : rs1 i = rs i := by
          have hne : i ≠ j := fun hij => hjl' (hij ▸ hil')
          unfold stepReg at hstep
          by_cases hj13 : j.val = 13
          · simp only [hj13, if_pos rfl] at hstep; cases hstep; rfl
          · simp only [if_neg hj13] at hstep
            cases happ : applyRegisterRule pc cfa mem (rules j) (rs j) j with
            | error e =>
              rw [happ, exceptMap_error] at hstep; exact Except.noConfusion hstep
            | ok v =>
              rw [happ, exceptMap_ok] at hstep
              cases hstep
              simp [updateReg, hne]
        have := ih rs1 regs' hnodup' h i hil' h13
        rwa [h1] at this

/-- If some processed slot's rule fails for every possible old value, the
whole loop is fatal. -/
lemma foldl_stepReg_error {rules : Fin 16 → RegisterRule} {pc cfa : Nat} {mem : Mem} :
    ∀ (l : List (Fin 16)) (rs : Registers) (i : Fin 16), i ∈ l → i.val ≠ 13 →
      (∀ old, ∃ e, applyRegisterRule pc cfa mem (rules i) old i = .error e) →
      ∃ e, l.foldlM (stepReg rules pc cfa mem) rs = .error e := by
  intro l
  induction l with
  | nil => intro rs i hi; exact absurd hi (List.not_mem_nil i)
  | cons j l' ih =>
    intro rs i hi h13 hfail
    simp only [List.foldlM_cons]
    cases hstep : stepReg rules pc cfa mem rs j with
    | error e => exact ⟨e, exceptBind_error e _⟩
    | ok rs1 =>
      rcases List.mem_cons.mp hi with hij | hil'
      · subst hij
        obtain ⟨e, he⟩ := hfail (rs i)
        unfold stepReg at hstep
        rw [if_neg h13, he, exceptMap_error] at hstep
        exact Except.noConfusion hstep
      · obtain ⟨e, he⟩ := ih rs1 i hil' h13 hfail
        exact ⟨e, by rw [exceptBind_ok]; exact he⟩

/-- Clearing the low bit with `& 0xFFFFFFFE` is doubling the half. -/
lemma land_mask_eq (lr : Nat) : lr &&& 0xFFFFFFFE = 2 * ((lr / 2) % 2 ^ 31) := by
  have hmask : (0xFFFFFFFE : Nat) = (2 ^ 31 - 1) <<< 1 := by
    rw [Nat.shiftLeft_eq]; norm_num
  have hrhs : 2 * ((lr / 2) % 2 ^ 31) = ((lr >>> 1) % 2 ^ 31) <<< 1 := by
    rw [Nat.shiftLeft_eq, Nat.shiftRight_one]
    ring
  rw [hmask, hrhs]
  apply Nat.eq_of_testBit_eq
  intro i
  rw [Nat.testBit_and, Nat.testBit_shiftLeft, Nat.testBit_shiftLeft,
    Nat.testBit_two_pow_sub_one, Nat.testBit_mod_two_pow, Nat.testBit_shiftRight]
  cases i with
  | zero => simp
  | succ n =>
    simp only [Nat.add_sub_cancel, Nat.add_comm 1 n]
    cases h : lr.testBit (n + 1) <;> simp [Bool.and_comm]

/-- For a saved LR below 2, the masked value is 0 and the u64 decrement
wraps around to `2 ^ 64 - 1`. -/
lemma advanceLr_of_lt_two {lr : Nat} (h : lr < 2) : advanceLr lr = 2 ^ 64 - 1 := by
  unfold advanceLr
  rw [land_mask_eq]
  have h0 : lr / 2 = 0 := by omega
  rw [h0]
  omega

/-- For a saved 32-bit LR of at least 2, the u64-wrapping decrement is the
genuine subtraction on the masked value. -/
lemma advanceLr_sub_one {lr : Nat} (h2 : 2 ≤ lr) (h32 : lr < 2 ^ 32) :
    advanceLr lr = (lr &&& 0xFFFFFFFE) - 1 := by
  unfold advanceLr
  simp only [land_mask_eq]
  omega

/-- C1: in an unwind step with a computed CFA, for every register slot
`i ≠ 13`: an `undefined` rule keeps the old value on slots
4,5,6,7,8,10,11,14, sets slot 15 to the current PC, and clears every
other slot; `same value` passes the old value through; `CFA plus offset o`
yields the 4 bytes at `CFA + o` decoded little-endian, a failed target
read being fatal to the step; any other CFI register rule is fatal
(unimplemented). -/
theorem cfi_register_rule_application
    (rules : Fin 16 → RegisterRule) (regs regs' : Registers)
    (pc cfa : Nat) (mem : Mem) (i : Fin 16)
    (hi : i.val ≠ 13) (hpc : pc < 2 ^ 32) :
    (applyRegisterRules rules regs pc cfa mem = .ok regs' →
      (rules i = .undefined →
        regs' i =
          if i.val = 4 ∨ i.val = 5 ∨ i.val = 6 ∨ i.val = 7 ∨ i.val = 8 ∨
             i.val = 10 ∨ i.val = 11 ∨ i.val = 14 then regs i
          else if i.val = 15 then some pc
          else none) ∧
      (rules i = .sameValue → regs' i = regs i) ∧
      (∀ o, rules i = .offset o →
        ∃ v, readWord mem (wrap32 ((cfa : Int) + o)) = some v ∧ regs' i = some v)) ∧
    (∀ o, rules i = .offset o → readWord mem (wrap32 ((cfa : Int) + o)) = none →
      ∃ e, applyRegisterRules rules regs pc cfa mem = .error e) ∧
    (rules i = .unsupported →
      ∃ e, applyRegisterRules rules regs pc cfa mem = .error e) := by
  refine ⟨?_, ?_, ?_⟩
  · intro hok
    have hok' : (List.finRange 16).foldlM (stepReg rules pc cfa mem) regs = .ok regs' := hok
    have hmain := foldl_stepReg_mem (List.finRange 16) regs regs'
      (List.nodup_finRange 16) hok' i (List.mem_finRange i) hi
    refine ⟨?_, ?_, ?_⟩
    · intro hr
      rw [hr] at hmain
      simp only [applyRegisterRule] at hmain
      rw [← Except.ok.inj hmain, Nat.mod_eq_of_lt hpc]
    · intro hr
      rw [hr] at hmain
      simp only [applyRegisterRule] at hmain
      exact (Except.ok.inj hmain).symm
    · intro o hr
      rw [hr] at hmain
      simp only [applyRegisterRule] at hmain
      cases hread : readWord mem (wrap32 ((cfa : Int) + o)) with
      | none => rw [hread] at hmain; exact Except.noConfusion hmain
      | some v =>
        rw [hread] at hmain
        exact ⟨v, rfl, (Except.ok.inj hmain).symm⟩
  · intro o hr hread
    exact foldl_stepReg_error (List.finRange 16) regs i (List.mem_finRange i) hi
      (fun old => ⟨.readFailed, by simp [applyRegisterRule, hr, hread]⟩)
  · intro hr
    exact foldl_stepReg_error (List.finRange 16) regs i (List.mem_finRange i) hi
      (fun old => ⟨.unimplementedRule, by simp [applyRegisterRule, hr]⟩)

/-- Witness for C1: the loop really produces `w1out` from the witness
inputs, and every rule case of the theorem fires with a true antecedent —
`sameValue` on slot 0 (value kept), `offset 0` on slot 1 (the word read
little-endian at CFA 5), `undefined` on slot 2 (cleared), and, on a
failing target and an unimplemented rule, both fatal cases. -/
theorem cfi_register_rule_application_witness :
    applyRegisterRules w1rules w1regs 100 5 w1mem = .ok w1out ∧
    w1rules 0 = .sameValue ∧ w1out 0 = w1regs 0 ∧
    w1rules 1 = .offset 0 ∧
    (∃ v, readWord w1mem (wrap32 (((5 : Nat) : Int) + 0)) = some v ∧
      w1out 1 = some v) ∧
    w1rules 2 = .undefined ∧
    (w1out 2 =
      if (2 : Fin 16).val = 4 ∨ (2 : Fin 16).val = 5 ∨ (2 : Fin 16).val = 6 ∨
         (2 : Fin 16).val = 7 ∨ (2 : Fin 16).val = 8 ∨ (2 : Fin 16).val = 10 ∨
         (2 : Fin 16).val = 11 ∨ (2 : Fin 16).val = 14 then w1regs 2
      else if (2 : Fin 16).val = 15 then some 100
      else none) ∧
    w1rulesBad 0 = .offset 0 ∧
    readWord w1memBad (wrap32 (((5 : Nat) : Int) + 0)) = none ∧
    (∃ e, applyRegisterRules w1rulesBad w1regs 100 5 w1memBad = .error e) ∧
    w1rulesBad 1 = .unsupported ∧
    (∃ e, applyRegisterRules w1rulesBad w1regs 100 5 w1memBad = .error e) :=
  ⟨rfl, rfl,
    ((cfi_register_rule_application w1rules w1regs w1out 100 5 w1mem 0
        (by decide) (by decide)).1 rfl).2.1 rfl,
    rfl,
    ((cfi_register_rule_application w1rules w1regs w1out 100 5 w1mem 1
        (by decide) (by decide)).1 rfl).2.2 0 rfl,
    rfl,
    ((cfi_register_rule_application w1rules w1regs w1out 100 5 w1mem 2
        (by decide) (by decide)).1 rfl).1 rfl,
    rfl, rfl,
    (cfi_register_rule_application w1rulesBad w1regs w1out 100 5 w1memBad 0
        (by decide) (by decide)).2.1 0 rfl rfl,
    rfl,
    (cfi_register_rule_application w1rulesBad w1regs w1out 100 5 w1memBad 1
        (by decide) (by decide)).2.2 rfl⟩

/-- C9: the next-PC advance `(LR & !1) - 1` is an unguarded unsigned
64-bit subtraction: it is the genuine subtraction only for a saved LR of
at least 2, while for LR = 0 or 1 it underflows (wrapping to `2^64 - 1`,
a bogus PC) instead of ending the sequence cleanly (the slot stays
`some`, never `none`). -/
theorem next_pc_subtraction_underflow :
    (∀ lr, lr < 2 →
      advanceLr lr = 2 ^ 64 - 1 ∧ (some (advanceLr lr) : Option Nat) ≠ none) ∧
    (∀ lr, 2 ≤ lr → lr < 2 ^ 32 → advanceLr lr = (lr &&& 0xFFFFFFFE) - 1) :=
  ⟨fun _ h => ⟨advanceLr_of_lt_two h, by simp⟩,
   fun _ h2 h32 => advanceLr_sub_one h2 h32⟩

/-- Witness for C9 at LR = 0 (underflow) and LR = 8 (genuine minus one). -/
theorem next_pc_subtraction_underflow_witness :
    (0 : Nat) < 2 ∧ advanceLr 0 = 2 ^ 64 - 1 ∧
    (2 : Nat) ≤ 8 ∧ (8 : Nat) < 2 ^ 32 ∧ advanceLr 8 = (8 &&& 0xFFFFFFFE) - 1 :=
  ⟨by decide, (next_pc_subtraction_underflow.1 0 (by decide)).1,
   by decide, by decide, next_pc_subtraction_underflow.2 8 (by decide) (by decide)⟩

/-- Every frame built by `get_stackframe_info` snapshots exactly the
registers it was given. -/
lemma getStackframeInfo_registers
    (gv : FunctionDie → Nat → Nat → Except DebugError (List Variable))
    (us : List CompUnit) (a n : Nat) (rs : Registers) (fr : StackFrame)
    (h : getStackframeInfo gv us a n rs = .ok fr) : fr.registers = rs := by
  unfold getStackframeInfo at h
  split at h
  · split at h
    · exact Except.noConfusion h
    · cases h; rfl
  · cases h; rfl

/-- Once the registers are restored, a yielded frame snapshots exactly the
restored registers, and the successor state advances the PC from its
slot 14. -/
lemma finishStep_yield
    (gv : FunctionDie → Nat → Nat → Except DebugError (List Variable))
    (us : List CompUnit) (pc n : Nat) (regs2 : Registers) (f : StackFrame)
    (st' : UnwindState)
    (h : finishStep gv us pc n regs2 = .result (some f) st') :
    f.registers = regs2 ∧
    st' = { frameCount := n + 1, pc := (regs2 14).map advanceLr, registers := regs2 } := by
  unfold finishStep at h
  split at h
  · rename_i f0 hfr
    injection h with h1 h2
    injection h1 with h1
    subst h1
    exact ⟨getStackframeInfo_registers _ _ _ _ _ _ hfr, h2.symm⟩
  · injection h with h1 h2
    exact Option.noConfusion h1

/-- C2: after every yielded stack frame, the iterator's next program
counter is the frame's saved link-register (slot 14) value with its low
bit cleared, minus one (`advanceLr`; genuinely minus one whenever the
saved LR is a 32-bit value of at least 2); and if slot 14 holds no value
after the register rules, the next call to `next` yields nothing. -/
theorem next_pc_after_yield
    (uw : Nat → Option UnwindInfoRow) (mem : Mem)
    (getVars : FunctionDie → Nat → Nat → Except DebugError (List Variable))
    (units : List CompUnit) (st st' : UnwindState) (f : StackFrame)
    (h : iterNext uw mem getVars units st = .result (some f) st') :
    st'.pc = (f.registers 14).map advanceLr ∧
    (f.registers 14 = none →
      ∀ (uw2 : Nat → Option UnwindInfoRow) (mem2 : Mem)
        (getVars2 : FunctionDie → Nat → Nat → Except DebugError (List Variable))
        (units2 : List CompUnit),
        iterNext uw2 mem2 getVars2 units2 st' = .result none st') ∧
    (∀ lr, f.registers 14 = some lr → 2 ≤ lr → lr < 2 ^ 32 →
      st'.pc = some ((lr &&& 0xFFFFFFFE) - 1)) := by
  unfold iterNext at h
  split at h
  · injection h with h1 h2; exact Option.noConfusion h1
  · split at h
    · injection h with h1 h2; exact Option.noConfusion h1
    · split at h
      · exact NextResult.noConfusion h
      · split at h
        · split at h
          · injection h with h1 h2; exact Option.noConfusion h1
          · split at h
            · exact NextResult.noConfusion h
            · obtain ⟨hfr, hst⟩ := finishStep_yield _ _ _ _ _ _ _ h
              subst hst
              refine ⟨by rw [hfr], ?_, ?_⟩
              · intro h14 uw2 mem2 gv2 us2
                rw [← hfr, h14]
                rfl
              · intro lr h14 h2 h32
                rw [← hfr, h14]
                show some (advanceLr lr) = _
                rw [advanceLr_sub_one h2 h32]
        · exact NextResult.noConfusion h

/-- Witness for C2: a concrete two-step unwind environment where the saved
LR is 8 and the next PC becomes `(8 & !1) - 1 = 7`. -/
theorem next_pc_after_yield_witness :
    iterNext c2uw c2mem noVars [] c2st = .result (some c2fr) c2next ∧
    c2next.pc = (c2fr.registers 14).map advanceLr ∧
    c2fr.registers 14 = some 8 ∧ (2 : Nat) ≤ 8 ∧ (8 : Nat) < 2 ^ 32 ∧
    c2next.pc = some ((8 &&& 0xFFFFFFFE) - 1) :=
  ⟨rfl, (next_pc_after_yield c2uw c2mem noVars [] c2st c2next c2fr rfl).1,
    by decide, by decide, by decide,
    (next_pc_after_yield c2uw c2mem noVars [] c2st c2next c2fr rfl).2.2 8
      (by decide) (by decide) (by decide)⟩

/-- C3: whenever the location-expression interpreter suspends with a
memory request of 1, 2 or 4 bytes, the bridge performs exactly one live
target read of that many bytes at the (32-bit-truncated) address and
resumes the interpreter with the bytes assembled big-endian: the first
byte read is the most significant; a 1-byte request resumes with the
single byte. -/
theorem bridge_memory_big_endian {σ : Type} (ev : Evaluation σ) (mem : Mem)
    (readReg : Nat → Option Nat) (fb : Nat) (s : σ) (addr : Nat)
    (hlt : addr < 2 ^ 32) :
    (∀ b0, ev.status s = .requiresMemory addr 1 → mem addr = some b0 →
      bridgeStep ev mem readReg fb s =
        .ok (some (ev.resumeMemory s (.u8 b0)), [(addr, 1)])) ∧
    (∀ b0 b1, ev.status s = .requiresMemory addr 2 →
      mem addr = some b0 → mem (addr + 1) = some b1 →
      bridgeStep ev mem readReg fb s =
        .ok (some (ev.resumeMemory s (.u16 ((b0 <<< 8) ||| b1))), [(addr, 2)])) ∧
    (∀ b0 b1 b2 b3, ev.status s = .requiresMemory addr 4 →
      mem addr = some b0 → mem (addr + 1) = some b1 →
      mem (addr + 2) = some b2 → mem (addr + 3) = some b3 →
      bridgeStep ev mem readReg fb s =
        .ok (some (ev.resumeMemory s
              (.u32 ((b0 <<< 24) ||| (b1 <<< 16) ||| (b2 <<< 8) ||| b3))),
            [(addr, 4)])) := by
  have haddr : addr % 2 ^ 32 = addr := Nat.mod_eq_of_lt hlt
  refine ⟨?_, ?_, ?_⟩
  · intro b0 hst h0
    have hbytes : readBytes mem addr 1 = some [b0] := by
      show (List.range 1).mapM (fun k => mem (addr + k)) = some [b0]
      rw [show List.range 1 = [0] from rfl, List.mapM_cons, List.mapM_nil,
        Nat.add_zero, h0]
      rfl
    simp only [bridgeStep, hst, haddr, hbytes]
  · intro b0 b1 hst h0 h1
    have hbytes : readBytes mem addr 2 = some [b0, b1] := by
      show (List.range 2).mapM (fun k => mem (addr + k)) = some [b0, b1]
      rw [show List.range 2 = [0, 1] from rfl, List.mapM_cons, List.mapM_cons,
        List.mapM_nil, Nat.add_zero, h0, h1]
      rfl
    simp only [bridgeStep, hst, haddr, hbytes]
  · intro b0 b1 b2 b3 hst h0 h1 h2 h3
    have hbytes : readBytes mem addr 4 = some [b0, b1, b2, b3] := by
      show (List.range 4).mapM (fun k => mem (addr + k)) = some [b0, b1, b2, b3]
      rw [show List.range 4 = [0, 1, 2, 3] from rfl, List.mapM_cons, List.mapM_cons,
        List.mapM_cons, List.mapM_cons, List.mapM_nil, Nat.add_zero, h0, h1, h2, h3]
      rfl
    simp only [bridgeStep, hst, haddr, hbytes]

/-- Witness for C3: a 2-byte request at address 10 with bytes 11, 12 read
big-endian. -/
theorem bridge_memory_big_endian_witness :
    (10 : Nat) < 2 ^ 32 ∧ w3ev.status 0 = .requiresMemory 10 2 ∧
    w3mem 10 = some 11 ∧ w3mem (10 + 1) = some 12 ∧
    bridgeStep w3ev w3mem (fun _ => none) 0 0 =
      .ok (some (w3ev.resumeMemory 0 (.u16 ((11 <<< 8) ||| 12))), [(10, 2)]) :=
  ⟨by decide, rfl, rfl, rfl,
    (bridge_memory_big_endian w3ev w3mem (fun _ => none) 0 0 10 (by decide)).2.1
      11 12 rfl rfl rfl⟩

/-- Appending a child changes only the child list. -/
lemma addChild_role (p c : Variable) : (addChildVariable p c).role = p.role := by
  cases p; rfl

lemma addChild_children (p c : Variable) :
    childrenList (addChildVariable p c) = childrenList p ++ [c] := by
  cases p
  rename_i cs
  cases cs <;> rfl

lemma foldl_addChild_role (cs : List Variable) (p : Variable) :
    (cs.foldl addChildVariable p).role = p.role := by
  induction cs generalizing p with
  | nil => rfl
  | cons c cs ih => rw [List.foldl_cons, ih, addChild_role]

lemma foldl_addChild_children (cs : List Variable) (p : Variable) :
    childrenList (cs.foldl addChildVariable p) = childrenList p ++ cs := by
  induction cs generalizing p with
  | nil => simp
  | cons c cs ih =>
    rw [List.foldl_cons, ih, addChild_children, List.append_assoc,
      List.singleton_append]

/-- The grand-child loop preserves the parent's role and appends exactly
the matching variants' children, in order. -/
lemma spliceStep_foldl (d : Nat) :
    ∀ (gcs : List Variable) (par : Variable), par.role = .variantPart d →
      (gcs.foldl spliceStep par).role = .variantPart d ∧
      childrenList (gcs.foldl spliceStep par) =
        childrenList par ++
          gcs.flatMap
            (fun gc => if gc.role = .variant d then childrenList gc else []) := by
  intro gcs
  induction gcs with
  | nil => intro par hrole; simp [hrole]
  | cons gc rest ih =>
    intro par hrole
    rw [List.foldl_cons, List.flatMap_cons]
    have hstep :
        (spliceStep par gc).role = .variantPart d ∧
        childrenList (spliceStep par gc) =
          childrenList par ++
            (if gc.role = .variant d then childrenList gc else []) := by
      cases hgc : gc.role with
      | variant d' =>
        by_cases hd : d' = d
        · subst hd
          have e1 : spliceStep par gc =
              match gc.children with
              | some ac => ac.foldl addChildVariable par
              | none => par := by
            simp only [spliceStep, hgc]
            rw [if_pos hrole]
          rw [e1, if_pos (rfl : (VariantRole.variant d' : VariantRole) = .variant d')]
          cases hch : gc.children with
          | some ac =>
            refine ⟨?_, ?_⟩
            · rw [foldl_addChild_role, hrole]
            · rw [foldl_addChild_children]
              have hcg : childrenList gc = ac := by
                unfold childrenList; rw [hch]; rfl
              rw [hcg]
          | none =>
            refine ⟨hrole, ?_⟩
            have hcg : childrenList gc = [] := by
              unfold childrenList; rw [hch]; rfl
            rw [hcg, List.append_nil]
        · have hne : ¬ par.role = VariantRole.variantPart d' := by
            rw [hrole]
            intro hcon
            exact hd (VariantRole.variantPart.inj hcon).symm
          have e1 : spliceStep par gc = par := by
            simp only [spliceStep, hgc]
            rw [if_neg hne]
          rw [e1, if_neg (fun hcon => hd (VariantRole.variant.inj hcon))]
          exact ⟨hrole, by rw [List.append_nil]⟩
      | nonVariant => simp [spliceStep, hgc, hrole]
      | variantPart d'' => simp [spliceStep, hgc, hrole]
    obtain ⟨hrole', hch'⟩ := hstep
    obtain ⟨ihr, ihc⟩ := ih (spliceStep par gc) hrole'
    refine ⟨ihr, ?_⟩
    rw [ihc, hch', List.append_assoc]

/-- C4 counterexample: a variant part with discriminant 2 and two Variant
grand-children both declaring discriminant 2 splices BOTH children sets
(`["a", "b"]`) onto the parent — "the first match wins" would leave only
`["a"]`, so that part of the claim is false. -/
theorem variant_splice_counterexample :
    (childrenList (spliceVariantPart cexParent (some [gc1, gc2]))).map Variable.name
      = ["a", "b"] ∧ (["a", "b"] : List String) ≠ ["a"] :=
  ⟨rfl, by decide⟩

/-- C4 (amended): when a variant-part node with resolved discriminant `d`
is processed, exactly the grand-children whose role is `Variant(d)` have
their children appended to the real parent, in order; non-matching
Variants contribute nothing; if more than one Variant matches, every
matching Variant's children are appended (the code does not stop at the
first match). -/
theorem variant_part_splices_all_matching (parent : Variable) (d : Nat)
    (gcs : List Variable) (hrole : parent.role = .variantPart d) :
    childrenList (spliceVariantPart parent (some gcs)) =
      childrenList parent ++
        gcs.flatMap
          (fun gc => if gc.role = .variant d then childrenList gc else []) :=
  (spliceStep_foldl d gcs parent hrole).2

/-- Witness for C4 (amended) at the concrete two-matching-variants input. -/
theorem variant_part_splices_all_matching_witness :
    cexParent.role = .variantPart 2 ∧
    childrenList (spliceVariantPart cexParent (some [gc1, gc2])) =
      childrenList cexParent ++
        [gc1, gc2].flatMap
          (fun gc => if gc.role = .variant 2 then childrenList gc else []) :=
  ⟨rfl, variant_part_splices_all_matching cexParent 2 [gc1, gc2] rfl⟩

/-- C7 counterexample: an unwind step at a PC covered by no function DIE
yields a frame whose id is the frame count (7), not the CFA (slot 13
holds 100): "every StackFrame's id equals the frame's CFA" is false. -/
theorem stackframe_id_counterexample :
    c7fr = frameOf (iterNext c7uw (fun _ => none) noVars [] c7st) ∧
    c7fr.registers 13 = some 100 ∧ c7fr.id = 7 ∧ (7 : Nat) ≠ 100 :=
  ⟨rfl, rfl, rfl, by decide⟩

/-- C7 (amended): a StackFrame built while a function DIE covering the PC
was found has its id equal to the CFA value in slot 13 (0 when absent);
when no function DIE covers the PC, the synthetic frame's id is the
running frame count instead. -/
theorem stackframe_id_amended
    (gv : FunctionDie → Nat → Nat → Except DebugError (List Variable))
    (units : List CompUnit) (addr n : Nat) (regs : Registers) (fr : StackFrame)
    (h : getStackframeInfo gv units addr n regs = .ok fr) :
    ((findFunctionDie units addr).isSome → fr.id = (regs 13).getD 0) ∧
    (findFunctionDie units addr = none → fr.id = n) := by
  unfold getStackframeInfo at h
  split at h
  · rename_i die hdie
    split at h
    · exact Except.noConfusion h
    · cases h
      refine ⟨fun _ => rfl, fun hnone => ?_⟩
      rw [hdie] at hnone
      exact Option.noConfusion hnone
  · rename_i hdie
    cases h
    refine ⟨fun hs => ?_, fun _ => rfl⟩
    rw [hdie] at hs
    exact Bool.noConfusion hs

/-- Witness for C7 (amended) at a concrete unit set where the function DIE
is found and the frame id is the CFA 42. -/
theorem stackframe_id_amended_witness :
    getStackframeInfo noVars [w7unit] 5 3 w7regs = .ok w7fr ∧
    ((findFunctionDie [w7unit] 5).isSome → w7fr.id = (w7regs 13).getD 0) ∧
    (findFunctionDie [w7unit] 5 = none → w7fr.id = 3) :=
  ⟨rfl, (stackframe_id_amended noVars [w7unit] 5 3 w7regs w7fr rfl).1,
    (stackframe_id_amended noVars [w7unit] 5 3 w7regs w7fr rfl).2⟩

/-- When no function DIE's range covers the address, the DIE search comes
back empty. -/
lemma findFunctionDie_eq_none (units : List CompUnit) (addr : Nat)
    (h : ∀ u ∈ units, ∀ f ∈ u.functions, ∀ r ∈ f.ranges, ¬(r.1 ≤ addr ∧ addr < r.2)) :
    findFunctionDie units addr = none := by
  unfold findFunctionDie
  rw [List.findSome?_eq_none_iff]
  intro u hu
  rw [List.find?_eq_none]
  intro f hf hany
  obtain ⟨r, hr, hpred⟩ := List.any_eq_true.mp hany
  have hcontr := h u hu f hf r hr
  simp only [Bool.and_eq_true, decide_eq_true_eq] at hpred
  exact hcontr hpred

/-- C8: when no compile unit contains a subprogram or inlined-subroutine
DIE covering the PC, stack-frame construction still succeeds, yielding a
frame named `<unknown_function_N>` (N = frame count) with an empty
variable list — missing symbol information alone never fails the step. -/
theorem unknown_function_frame
    (gv : FunctionDie → Nat → Nat → Except DebugError (List Variable))
    (units : List CompUnit) (addr n : Nat) (regs : Registers)
    (h : ∀ u ∈ units, ∀ f ∈ u.functions, ∀ r ∈ f.ranges, ¬(r.1 ≤ addr ∧ addr < r.2)) :
    ∃ fr, getStackframeInfo gv units addr n regs = .ok fr ∧
      fr.functionName = unknownFunctionName n ∧
      fr.frameVariables = [] ∧
      fr.sourceLocation = getSourceLocation units addr := by
  unfold getStackframeInfo
  rw [findFunctionDie_eq_none units addr h]
  exact ⟨_, rfl, rfl, rfl, rfl⟩

/-- Witness for C8: a unit whose only function covers `[0, 10)`, queried
at PC 50. -/
theorem unknown_function_frame_witness :
    (∀ u ∈ [w7unit], ∀ f ∈ u.functions, ∀ r ∈ f.ranges, ¬(r.1 ≤ 50 ∧ 50 < r.2)) ∧
    (∃ fr, getStackframeInfo noVars [w7unit] 50 4 w7regs = .ok fr ∧
      fr.functionName = unknownFunctionName 4 ∧
      fr.frameVariables = [] ∧
      fr.sourceLocation = getSourceLocation [w7unit] 50) :=
  ⟨by decide, unknown_function_frame noVars [w7unit] 50 4 w7regs (by decide)⟩

/-- A unit none of whose ranges contain the address falls through. -/
lemma scanRanges_no_contain (u : CompUnit) (addr : Nat) :
    ∀ (rs : List (Nat × Nat)), (∀ r ∈ rs, ¬(r.1 ≤ addr ∧ addr < r.2)) →
      scanRanges u addr rs = .fallthrough := by
  intro rs
  induction rs with
  | nil => intro _; rfl
  | cons r rest ih =>
    intro h
    obtain ⟨b, e⟩ := r
    unfold scanRanges
    rw [if_neg (h (b, e) (List.mem_cons_self _ _))]
    exact ih (fun q hq => h q (List.mem_cons_of_mem _ hq))

/-- A unit with a containing range but no line program aborts the whole
lookup. -/
lemma scanRanges_abort_of_no_program (u : CompUnit) (addr : Nat)
    (h3 : u.lineProgram = none) :
    ∀ (rs : List (Nat × Nat)), (∃ r ∈ rs, r.1 ≤ addr ∧ addr < r.2) →
      scanRanges u addr rs = .abort := by
  intro rs
  induction rs with
  | nil => intro h; simp at h
  | cons r rest ih =>
    intro h
    obtain ⟨b, e⟩ := r
    unfold scanRanges
    have hpu : processUnit u addr = .abort := by
      unfold processUnit
      rw [h3]
    by_cases hc : b ≤ addr ∧ addr < e
    · rw [if_pos hc, hpu]
    · rw [if_neg hc]
      apply ih
      rcases h with ⟨q, hq, hcont⟩
      rcases List.mem_cons.mp hq with hqe | hqrest
      · subst hqe; exact absurd hcont hc
      · exact ⟨q, hqrest, hcont⟩

/-- C10: if the first compile unit whose range list contains the address
has no line-number program, the lookup returns nothing immediately —
regardless of that unit's remaining ranges and of every later unit. -/
theorem missing_line_program_aborts
    (us1 us2 : List CompUnit) (u : CompUnit) (addr : Nat)
    (h1 : ∀ v ∈ us1, ∀ r ∈ v.ranges, ¬(r.1 ≤ addr ∧ addr < r.2))
    (h2 : ∃ r ∈ u.ranges, r.1 ≤ addr ∧ addr < r.2)
    (h3 : u.lineProgram = none) :
    getSourceLocation (us1 ++ u :: us2) addr = none := by
  induction us1 with
  | nil =>
    rw [List.nil_append]
    unfold getSourceLocation
    rw [scanRanges_abort_of_no_program u addr h3 u.ranges h2]
  | cons v vs ih =>
    rw [List.cons_append]
    unfold getSourceLocation
    rw [scanRanges_no_contain v addr v.ranges (h1 v (List.mem_cons_self _ _))]
    exact ih (fun w hw => h1 w (List.mem_cons_of_mem _ hw))

/-- Witness for C10: a program-less unit containing the address, followed
by a unit that does have line information (and is never consulted). -/
theorem missing_line_program_aborts_witness :
    (∃ r ∈ w10unit.ranges, r.1 ≤ 5 ∧ 5 < r.2) ∧ w10unit.lineProgram = none ∧
    getSourceLocation ([] ++ w10unit :: [w6unit]) 5 = none :=
  ⟨by decide, rfl,
    missing_line_program_aborts [] [w6unit] w10unit 5 (by decide) (by decide) rfl⟩

/-- An exact-address row is returned as soon as it is reached, whatever
rows below the target precede it. -/
lemma scanRows_exact (addr : Nat) :
    ∀ (l1 : List LineRow) (r : LineRow) (l2 : List LineRow) (prev : Option LineRow),
      (∀ q ∈ l1, q.address < addr) → r.address = addr →
      scanRows addr prev (l1 ++ r :: l2) = some r := by
  intro l1
  induction l1 with
  | nil =>
    intro r l2 prev _ hr
    rw [List.nil_append]
    unfold scanRows
    rw [if_pos hr]
  | cons q l1' ih =>
    intro r l2 prev hlt hr
    have hq := hlt q (List.mem_cons_self _ _)
    rw [List.cons_append]
    unfold scanRows
    rw [if_neg (by omega : ¬ q.address = addr),
      if_neg (fun hcon => absurd hcon.1 (by omega))]
    exact ih r l2 (some q) (fun p hp => hlt p (List.mem_cons_of_mem _ hp)) hr

/-- When the target sits between a row at-or-below it and the first row
above it, the at-or-below row is returned. -/
lemma scanRows_preceding (addr : Nat) :
    ∀ (l1 : List LineRow) (r q : LineRow) (l2 : List LineRow) (prev : Option LineRow),
      (∀ p ∈ l1, p.address < addr) → r.address ≤ addr → addr < q.address →
      scanRows addr prev (l1 ++ r :: q :: l2) = some r := by
  intro l1
  induction l1 with
  | nil =>
    intro r q l2 prev _ hr hq
    rw [List.nil_append]
    by_cases hex : r.address = addr
    · unfold scanRows
      rw [if_pos hex]
    · unfold scanRows
      rw [if_neg hex, if_neg (fun hcon => absurd hcon.1 (by omega))]
      unfold scanRows
      rw [if_neg (by omega : ¬ q.address = addr),
        if_pos ⟨hq, rfl⟩]
  | cons p l1' ih =>
    intro r q l2 prev hlt hr hq
    have hp := hlt p (List.mem_cons_self _ _)
    rw [List.cons_append]
    unfold scanRows
    rw [if_neg (by omega : ¬ p.address = addr),
      if_neg (fun hcon => absurd hcon.1 (by omega))]
    exact ih r q l2 (some p) (fun x hx => hlt x (List.mem_cons_of_mem _ hx)) hr hq

/-- A unit whose program and sequence are found and whose row scan
returns a row reports that row's location. -/
lemma processUnit_found (u : CompUnit) (addr : Nat) (seqs : List LineSequence)
    (seq : LineSequence) (r : LineRow)
    (h3 : u.lineProgram = some seqs)
    (h4 : seqs.find? (fun s => s.start ≤ addr && addr < s.stop) = some seq)
    (h5 : scanRows addr none seq.rows = some r) :
    processUnit u addr = .found (rowLoc r) := by
  simp only [processUnit, h3, h4, h5]

/-- A unit with a containing range propagates a non-fallthrough
`processUnit` outcome. -/
lemma scanRanges_found (u : CompUnit) (addr : Nat) (loc : SourceLocation)
    (hpu : processUnit u addr = .found loc) :
    ∀ (rs : List (Nat × Nat)), (∃ r ∈ rs, r.1 ≤ addr ∧ addr < r.2) →
      scanRanges u addr rs = .found loc := by
  intro rs
  induction rs with
  | nil => intro h; simp at h
  | cons rg rest ih =>
    intro h
    obtain ⟨b, e⟩ := rg
    unfold scanRanges
    by_cases hc : b ≤ addr ∧ addr < e
    · rw [if_pos hc, hpu]
    · rw [if_neg hc]
      apply ih
      rcases h with ⟨p, hp, hcont⟩
      rcases List.mem_cons.mp hp with hpe | hprest
      · subst hpe; exact absurd hcont hc
      · exact ⟨p, hprest, hcont⟩

/-- A matching unit whose sequences never contain the address aborts the
lookup (the `?` on the missing target sequence). -/
lemma scanRanges_abort_of_no_seq (u : CompUnit) (addr : Nat)
    (seqs : List LineSequence) (h3 : u.lineProgram = some seqs)
    (hs : ∀ s ∈ seqs, ¬(s.start ≤ addr ∧ addr < s.stop)) :
    ∀ (rs : List (Nat × Nat)), (∃ r ∈ rs, r.1 ≤ addr ∧ addr < r.2) →
      scanRanges u addr rs = .abort := by
  have hfind : seqs.find? (fun s => s.start ≤ addr && addr < s.stop) = none :=
    List.find?_eq_none.mpr
      (fun s hsm hb => hs s hsm
        (by simpa only [Bool.and_eq_true, decide_eq_true_eq] using hb))
  have hpu : processUnit u addr = .abort := by
    simp only [processUnit, h3, hfind]
  intro rs
  induction rs with
  | nil => intro h; simp at h
  | cons rg rest ih =>
    intro h
    obtain ⟨b, e⟩ := rg
    unfold scanRanges
    by_cases hc : b ≤ addr ∧ addr < e
    · rw [if_pos hc, hpu]
    · rw [if_neg hc]
      apply ih
      rcases h with ⟨p, hp, hcont⟩
      rcases List.mem_cons.mp hp with hpe | hprest
      · subst hpe; exact absurd hcont hc
      · exact ⟨p, hprest, hcont⟩

/-- One unfolding of the unit loop when the head unit falls through. -/
lemma getSourceLocation_cons_fallthrough (v : CompUnit) (rest : List CompUnit)
    (addr : Nat) (h : scanRanges v addr v.ranges = .fallthrough) :
    getSourceLocation (v :: rest) addr = getSourceLocation rest addr := by
  conv_lhs => unfold getSourceLocation
  rw [h]

/-- One unfolding of the unit loop when the head unit finds a location. -/
lemma getSourceLocation_cons_found (v : CompUnit) (rest : List CompUnit)
    (addr : Nat) (loc : SourceLocation)
    (h : scanRanges v addr v.ranges = .found loc) :
    getSourceLocation (v :: rest) addr = some loc := by
  conv_lhs => unfold getSourceLocation
  rw [h]

/-- One unfolding of the unit loop when the head unit aborts. -/
lemma getSourceLocation_cons_abort (v : CompUnit) (rest : List CompUnit)
    (addr : Nat) (h : scanRanges v addr v.ranges = .abort) :
    getSourceLocation (v :: rest) addr = none := by
  conv_lhs => unfold getSourceLocation
  rw [h]

/-- Units with no containing range are skipped by the lookup. -/
lemma getSourceLocation_skip (addr : Nat) :
    ∀ (us1 rest : List CompUnit),
      (∀ v ∈ us1, ∀ rg ∈ v.ranges, ¬(rg.1 ≤ addr ∧ addr < rg.2)) →
      getSourceLocation (us1 ++ rest) addr = getSourceLocation rest addr := by
  intro us1
  induction us1 with
  | nil => intro rest _; rw [List.nil_append]
  | cons v vs ih =>
    intro rest h1
    rw [List.cons_append,
      getSourceLocation_cons_fallthrough v (vs ++ rest) addr
        (scanRanges_no_contain v addr v.ranges (h1 v (List.mem_cons_self _ _)))]
    exact ih rest (fun w hw => h1 w (List.mem_cons_of_mem _ hw))

/-- The row scan only ever returns a row of the list it scanned, or the
row it was seeded with. -/
lemma scanRows_mem (addr : Nat) :
    ∀ (rows : List LineRow) (prev : Option LineRow) (r : LineRow),
      scanRows addr prev rows = some r → r ∈ rows ∨ prev = some r := by
  intro rows
  induction rows with
  | nil => intro prev r h; exact Option.noConfusion h
  | cons x xs ih =>
    intro prev r h
    unfold scanRows at h
    by_cases hex : x.address = addr
    · rw [if_pos hex] at h
      cases Option.some.inj h
      exact Or.inl (List.mem_cons_self _ _)
    · rw [if_neg hex] at h
      by_cases hgt : addr < x.address ∧ prev.isSome
      · rw [if_pos hgt] at h
        exact Or.inr h
      · rw [if_neg hgt] at h
        rcases ih (some x) r h with hin | hpx
        · exact Or.inl (List.mem_cons_of_mem _ hin)
        · cases Option.some.inj hpx
          exact Or.inl (List.mem_cons_self _ _)

/-- Once the previously-seen row is at or below the target, whatever the
scan returns is at or below the target: exact matches equal it, the
previous-row return hands back the seed, and a row only becomes the seed
when it does not exceed the target. -/
lemma scanRows_le_aux (addr : Nat) :
    ∀ (rows : List LineRow) (p0 : LineRow), p0.address ≤ addr →
      ∀ r, scanRows addr (some p0) rows = some r → r.address ≤ addr := by
  intro rows
  induction rows with
  | nil => intro p0 _ r h; exact Option.noConfusion h
  | cons x xs ih =>
    intro p0 h0 r h
    unfold scanRows at h
    by_cases hex : x.address = addr
    · rw [if_pos hex] at h
      cases Option.some.inj h
      omega
    · rw [if_neg hex] at h
      by_cases hgt : addr < x.address ∧ (some p0 : Option LineRow).isSome
      · rw [if_pos hgt] at h
        cases Option.some.inj h
        exact h0
      · rw [if_neg hgt] at h
        have hx : x.address ≤ addr := by
          by_contra hc
          exact hgt ⟨by omega, rfl⟩
        exact ih x hx r h

/-- If the sequence's first row does not exceed the target, the scan
never returns a row above the target. -/
lemma scanRows_le (addr : Nat) (rows : List LineRow)
    (hhead : ∀ r0 ∈ rows.take 1, r0.address ≤ addr) :
    ∀ r, scanRows addr none rows = some r → r.address ≤ addr := by
  cases rows with
  | nil => intro r h; exact Option.noConfusion h
  | cons x xs =>
    intro r h
    have hx : x.address ≤ addr := hhead x (List.mem_cons_self _ _)
    unfold scanRows at h
    by_cases hex : x.address = addr
    · rw [if_pos hex] at h
      cases Option.some.inj h
      omega
    · rw [if_neg hex] at h
      rw [if_neg (fun hcon => Bool.noConfusion hcon.2)] at h
      exact scanRows_le_aux addr xs x hx r h

/-- A `found` outcome of `processUnit` comes from the found sequence's
row scan. -/
lemma processUnit_found_inv (u : CompUnit) (addr : Nat) (loc : SourceLocation)
    (h : processUnit u addr = .found loc) :
    ∃ seqs, u.lineProgram = some seqs ∧
      ∃ s ∈ seqs, (s.start ≤ addr ∧ addr < s.stop) ∧
        ∃ r, scanRows addr none s.rows = some r ∧ loc = rowLoc r := by
  unfold processUnit at h
  split at h
  · exact LookupOutcome.noConfusion h
  · rename_i seqs hlp
    split at h
    · exact LookupOutcome.noConfusion h
    · rename_i s hfind
      split at h
      · rename_i r hscan
        have hl : rowLoc r = loc := by injection h
        have hps := List.find?_some hfind
        simp only [Bool.and_eq_true, decide_eq_true_eq] at hps
        exact ⟨seqs, hlp, s, List.mem_of_find?_eq_some hfind,
          ⟨hps.1, hps.2⟩, r, hscan, hl.symm⟩
      · exact LookupOutcome.noConfusion h

/-- A `found` outcome of the range loop comes from `processUnit`. -/
lemma scanRanges_found_inv (u : CompUnit) (addr : Nat) (loc : SourceLocation) :
    ∀ (rs : List (Nat × Nat)), scanRanges u addr rs = .found loc →
      processUnit u addr = .found loc := by
  intro rs
  induction rs with
  | nil => intro h; exact LookupOutcome.noConfusion h
  | cons rg rest ih =>
    intro h
    obtain ⟨b, e⟩ := rg
    unfold scanRanges at h
    by_cases hc : b ≤ addr ∧ addr < e
    · rw [if_pos hc] at h
      have key : ∀ (o : LookupOutcome), processUnit u addr = o →
          (match o with
            | LookupOutcome.fallthrough => scanRanges u addr rest
            | out => out) = .found loc →
          processUnit u addr = .found loc := by
        intro o ho hm
        cases o with
        | fallthrough => exact ih hm
        | found loc' => rw [ho]; exact hm
        | abort => exact LookupOutcome.noConfusion hm
      exact key (processUnit u addr) rfl h
    · rw [if_neg hc] at h
      exact ih h

/-- A successful lookup comes from some unit's range loop. -/
lemma getSourceLocation_found_inv (addr : Nat) :
    ∀ (us : List CompUnit) (loc : SourceLocation),
      getSourceLocation us addr = some loc →
      ∃ u ∈ us, scanRanges u addr u.ranges = .found loc := by
  intro us
  induction us with
  | nil => intro loc h; exact Option.noConfusion h
  | cons u rest ih =>
    intro loc h
    unfold getSourceLocation at h
    cases hscan : scanRanges u addr u.ranges with
    | found loc' =>
      rw [hscan] at h
      have h' : some loc' = some loc := h
      cases Option.some.inj h'
      exact ⟨u, List.mem_cons_self _ _, hscan⟩
    | abort =>
      rw [hscan] at h
      exact Option.noConfusion h
    | fallthrough =>
      rw [hscan] at h
      obtain ⟨u', hu', hs'⟩ := ih loc h
      exact ⟨u', List.mem_cons_of_mem _ hu', hs'⟩

/-- C6: within the first compile unit whose ranges contain the queried
address, with the containing sequence found: an exact-address row is
returned; otherwise the last row at-or-below the address that precedes a
row above it is returned; the lookup returns nothing when no unit range
contains the address, and nothing when the matching unit's sequences do
not contain it; and — whenever every containing sequence starts at or
below the queried address, as a DWARF sequence does — any location the
lookup returns is built from an actual row of a scanned sequence whose
address is at most the queried address: never a row above it. -/
theorem source_location_row_semantics (addr : Nat) :
    (∀ (us1 us2 : List CompUnit) (u : CompUnit) (seqs : List LineSequence)
        (seq : LineSequence) (l1 : List LineRow) (r : LineRow) (l2 : List LineRow),
      (∀ v ∈ us1, ∀ rg ∈ v.ranges, ¬(rg.1 ≤ addr ∧ addr < rg.2)) →
      (∃ rg ∈ u.ranges, rg.1 ≤ addr ∧ addr < rg.2) →
      u.lineProgram = some seqs →
      seqs.find? (fun s => s.start ≤ addr && addr < s.stop) = some seq →
      seq.rows = l1 ++ r :: l2 →
      (∀ q ∈ l1, q.address < addr) → r.address = addr →
      getSourceLocation (us1 ++ u :: us2) addr = some (rowLoc r)) ∧
    (∀ (us1 us2 : List CompUnit) (u : CompUnit) (seqs : List LineSequence)
        (seq : LineSequence) (l1 : List LineRow) (r q : LineRow) (l2 : List LineRow),
      (∀ v ∈ us1, ∀ rg ∈ v.ranges, ¬(rg.1 ≤ addr ∧ addr < rg.2)) →
      (∃ rg ∈ u.ranges, rg.1 ≤ addr ∧ addr < rg.2) →
      u.lineProgram = some seqs →
      seqs.find? (fun s => s.start ≤ addr && addr < s.stop) = some seq →
      seq.rows = l1 ++ r :: q :: l2 →
      (∀ p ∈ l1, p.address < addr) → r.address ≤ addr → addr < q.address →
      getSourceLocation (us1 ++ u :: us2) addr = some (rowLoc r)) ∧
    (∀ (us : List CompUnit),
      (∀ v ∈ us, ∀ rg ∈ v.ranges, ¬(rg.1 ≤ addr ∧ addr < rg.2)) →
      getSourceLocation us addr = none) ∧
    (∀ (us1 us2 : List CompUnit) (u : CompUnit) (seqs : List LineSequence),
      (∀ v ∈ us1, ∀ rg ∈ v.ranges, ¬(rg.1 ≤ addr ∧ addr < rg.2)) →
      (∃ rg ∈ u.ranges, rg.1 ≤ addr ∧ addr < rg.2) →
      u.lineProgram = some seqs →
      (∀ s ∈ seqs, ¬(s.start ≤ addr ∧ addr < s.stop)) →
      getSourceLocation (us1 ++ u :: us2) addr = none) ∧
    (∀ (us : List CompUnit) (loc : SourceLocation),
      (∀ u ∈ us, ∀ s ∈ u.lineProgram.getD [],
        s.start ≤ addr → addr < s.stop →
        ∀ r0 ∈ s.rows.take 1, r0.address ≤ addr) →
      getSourceLocation us addr = some loc →
      ∃ u ∈ us, ∃ seqs, u.lineProgram = some seqs ∧
        ∃ s ∈ seqs, ∃ r ∈ s.rows, r.address ≤ addr ∧ loc = rowLoc r) := by
  refine ⟨?_, ?_, ?_, ?_, ?_⟩
  · intro us1 us2 u seqs seq l1 r l2 h1 h2 h3 h4 hrows hlt hr
    rw [getSourceLocation_skip addr us1 (u :: us2) h1]
    exact getSourceLocation_cons_found u us2 addr (rowLoc r)
      (scanRanges_found u addr (rowLoc r)
        (processUnit_found u addr seqs seq r h3 h4
          (by rw [hrows]; exact scanRows_exact addr l1 r l2 none hlt hr))
        u.ranges h2)
  · intro us1 us2 u seqs seq l1 r q l2 h1 h2 h3 h4 hrows hlt hr hq
    rw [getSourceLocation_skip addr us1 (u :: us2) h1]
    exact getSourceLocation_cons_found u us2 addr (rowLoc r)
      (scanRanges_found u addr (rowLoc r)
        (processUnit_found u addr seqs seq r h3 h4
          (by rw [hrows]; exact scanRows_preceding addr l1 r q l2 none hlt hr hq))
        u.ranges h2)
  · intro us h
    have hskip := getSourceLocation_skip addr us [] h
    rw [List.append_nil] at hskip
    rw [hskip]
    rfl
  · intro us1 us2 u seqs h1 h2 h3 hs
    rw [getSourceLocation_skip addr us1 (u :: us2) h1]
    exact getSourceLocation_cons_abort u us2 addr
      (scanRanges_abort_of_no_seq u addr seqs h3 hs u.ranges h2)
  · intro us loc hwf hfound
    obtain ⟨u, hu, hscan⟩ := getSourceLocation_found_inv addr us loc hfound
    obtain ⟨seqs, hlp, s, hsm, ⟨hstart, hstop⟩, r, hrows, hloc⟩ :=
      processUnit_found_inv u addr loc (scanRanges_found_inv u addr loc u.ranges hscan)
    have hhead : ∀ r0 ∈ s.rows.take 1, r0.address ≤ addr := by
      have := hwf u hu s
      rw [hlp] at this
      exact this hsm hstart hstop
    have hle : r.address ≤ addr := scanRows_le addr s.rows hhead r hrows
    have hmem : r ∈ s.rows := by
      rcases scanRows_mem addr s.rows none r hrows with hin | hcon
      · exact hin
      · exact Option.noConfusion hcon
    exact ⟨u, hu, seqs, hlp, s, hsm, r, hmem, hle, hloc⟩

/-- Witness for C6 at a concrete unit: address 15 falls between the rows
at 10 and 20, and the row at 10 is returned; an all-misses unit list
returns nothing. -/
theorem source_location_row_semantics_witness :
    (∃ rg ∈ w6unit.ranges, rg.1 ≤ 15 ∧ 15 < rg.2) ∧
    w6row1.address ≤ 15 ∧ 15 < w6row2.address ∧
    getSourceLocation ([] ++ w6unit :: []) 15 = some (rowLoc w6row1) ∧
    getSourceLocation [w10unit] 15 = none ∧
    (∃ u ∈ [w6unit], ∃ seqs, u.lineProgram = some seqs ∧
      ∃ s ∈ seqs, ∃ r ∈ s.rows, r.address ≤ 15 ∧ rowLoc w6row1 = rowLoc r) :=
  ⟨by decide, by decide, by decide,
    (source_location_row_semantics 15).2.1 [] [] w6unit
      [{ start := 0, stop := 100, rows := [w6row1, w6row2] }]
      { start := 0, stop := 100, rows := [w6row1, w6row2] }
      [] w6row1 w6row2 []
      (by decide) (by decide) rfl rfl rfl (by decide) (by decide) (by decide),
    (source_location_row_semantics 15).2.2.1 [w10unit] (by decide),
    (source_location_row_semantics 15).2.2.2.2 [w6unit] (rowLoc w6row1)
      (by decide) rfl⟩

/-! ### Order facts for the breakpoint comparator -/

lemma colLt_irrefl (a : ColType) : colLt a a = false := by
  cases a <;> simp [colLt]

lemma colLe_refl (a : ColType) : colLe a a = true := by
  cases a <;> simp [colLe]

lemma colLt_le {a b : ColType} (h : colLt a b = true) : colLe a b = true := by
  cases a <;> cases b <;> simp [colLt, colLe] at * <;> omega

lemma colLe_of_not_lt {a b : ColType} (h : ¬ colLt a b = true) : colLe b a = true := by
  cases a <;> cases b <;> simp [colLt, colLe] at * <;> omega

lemma colLt_colLe_absurd {a b : ColType} (h1 : colLt a b = true)
    (h2 : colLe b a = true) : False := by
  cases a <;> cases b <;> simp [colLt, colLe] at * <;> omega

lemma colLe_trans {a b c : ColType} (h1 : colLe a b = true) (h2 : colLe b c = true) :
    colLe a c = true := by
  cases a <;> cases b <;> cases c <;> simp [colLe] at * <;> omega

lemma colLt_le_trans {a b c : ColType} (h1 : colLt a b = true) (h2 : colLe b c = true) :
    colLt a c = true := by
  cases a <;> cases b <;> cases c <;> simp [colLt, colLe] at * <;> omega

lemma colLe_antisymm {a b : ColType} (h1 : colLe a b = true) (h2 : colLe b a = true) :
    a = b := by
  cases a <;> cases b <;> simp [colLe] at * <;> omega

lemma colLt_trans {a b c : ColType} (h1 : colLt a b = true) (h2 : colLt b c = true) :
    colLt a c = true := by
  cases a <;> cases b <;> cases c <;> simp [colLt] at * <;> omega

lemma colLt_of_ne {a b : ColType} (h : a ≠ b) :
    colLt a b = true ∨ colLt b a = true := by
  cases a <;> cases b <;> simp [colLt] at * <;> omega

lemma locLe_refl (a : Nat × ColType) : locLe a a = true := by
  simp [locLe]

lemma locLe_trans {a b c : Nat × ColType} (h1 : locLe a b = true)
    (h2 : locLe b c = true) : locLe a c = true := by
  simp only [locLe, Bool.or_eq_true, Bool.and_eq_true, decide_eq_true_eq] at *
  rcases h1 with h1 | ⟨he1, hle1⟩ <;> rcases h2 with h2 | ⟨he2, hle2⟩
  · exact Or.inl (colLt_trans h1 h2)
  · exact Or.inl (he2 ▸ h1)
  · exact Or.inl (by rw [he1]; exact h2)
  · exact Or.inr ⟨he1.trans he2, Nat.le_trans hle1 hle2⟩

lemma locLe_total (a b : Nat × ColType) : (locLe a b || locLe b a) = true := by
  simp only [locLe, Bool.or_eq_true, Bool.and_eq_true, decide_eq_true_eq]
  by_cases h : a.2 = b.2
  · by_cases hle : a.1 ≤ b.1
    · exact Or.inl (Or.inr ⟨h, hle⟩)
    · exact Or.inr (Or.inr ⟨h.symm, by omega⟩)
  · rcases colLt_of_ne h with hl | hl
    · exact Or.inl (Or.inl hl)
    · exact Or.inr (Or.inl hl)

lemma locLe_colLe {a b : Nat × ColType} (h : locLe a b = true) :
    colLe a.2 b.2 = true := by
  simp only [locLe, Bool.or_eq_true, Bool.and_eq_true, decide_eq_true_eq] at h
  rcases h with h | ⟨he, _⟩
  · exact colLt_le h
  · rw [he]; exact colLe_refl _

lemma locLe_addr {a b : Nat × ColType} (h : locLe a b = true) (he : a.2 = b.2) :
    a.1 ≤ b.1 := by
  simp only [locLe, Bool.or_eq_true, Bool.and_eq_true, decide_eq_true_eq] at h
  rcases h with h | ⟨_, hle⟩
  · rw [he] at h
    rw [colLt_irrefl] at h
    exact Bool.noConfusion h
  · exact hle

/-- The walk returns one of the candidates. -/
lemma walkBest_mem (sc : ColType) :
    ∀ (l : List (Nat × ColType)) (best : Nat × ColType),
      walkBest sc best l ∈ best :: l := by
  intro l
  induction l with
  | nil => intro best; simp [walkBest]
  | cons x xs ih =>
    intro best
    unfold walkBest
    by_cases h1 : colLt sc x.2
    · rw [if_pos h1]; exact List.mem_cons_self _ _
    · rw [if_neg h1]
      by_cases h2 : colLt best.2 x.2
      · rw [if_pos h2]
        rcases List.mem_cons.mp (ih x) with h | h
        · rw [h]; exact List.mem_cons_of_mem _ (List.mem_cons_self _ _)
        · exact List.mem_cons_of_mem _ (List.mem_cons_of_mem _ h)
      · rw [if_neg h2]
        rcases List.mem_cons.mp (ih best) with h | h
        · rw [h]; exact List.mem_cons_self _ _
        · exact List.mem_cons_of_mem _ (List.mem_cons_of_mem _ h)

/-- The walk never raises the column above the request once it starts
at-or-below it. -/
lemma walkBest_col_le (sc : ColType) :
    ∀ (l : List (Nat × ColType)) (best : Nat × ColType),
      colLe best.2 sc = true → colLe (walkBest sc best l).2 sc = true := by
  intro l
  induction l with
  | nil => intro best h; exact h
  | cons x xs ih =>
    intro best h
    unfold walkBest
    by_cases h1 : colLt sc x.2
    · rw [if_pos h1]; exact h
    · rw [if_neg h1]
      have hx : colLe x.2 sc = true := colLe_of_not_lt h1
      by_cases h2 : colLt best.2 x.2
      · rw [if_pos h2]; exact ih x hx
      · rw [if_neg h2]; exact ih best h

/-- On a sorted candidate list the walk never decreases the column. -/
lemma walkBest_col_ge (sc : ColType) (l : List (Nat × ColType))
    (best : Nat × ColType)
    (hp : (best :: l).Pairwise (fun a b => locLe a b = true)) :
    colLe best.2 (walkBest sc best l).2 = true := by
  rcases List.mem_cons.mp (walkBest_mem sc l best) with h | h
  · rw [h]; exact colLe_refl _
  · exact locLe_colLe ((List.pairwise_cons.mp hp).1 _ h)

/-- On a sorted candidate list, the walk's result dominates the column of
every candidate whose column is at most the request. -/
lemma walkBest_col_max (sc : ColType) :
    ∀ (l : List (Nat × ColType)) (best : Nat × ColType),
      (best :: l).Pairwise (fun a b => locLe a b = true) →
      ∀ p ∈ best :: l, colLe p.2 sc = true →
        colLe p.2 (walkBest sc best l).2 = true := by
  intro l
  induction l with
  | nil =>
    intro best _ p hp _
    rcases List.mem_cons.mp hp with h | h
    · rw [h]; exact colLe_refl _
    · exact absurd h (List.not_mem_nil p)
  | cons x xs ih =>
    intro best hpair p hp hpsc
    obtain ⟨hbest, hpair'⟩ := List.pairwise_cons.mp hpair
    unfold walkBest
    by_cases h1 : colLt sc x.2
    · rw [if_pos h1]
      rcases List.mem_cons.mp hp with h | h
      · rw [h]; exact colLe_refl _
      · rcases List.mem_cons.mp h with h' | h'
        · exact absurd hpsc
            (by rw [h']; intro hc; exact colLt_colLe_absurd h1 hc)
        · have hxp : colLe x.2 p.2 = true :=
            locLe_colLe ((List.pairwise_cons.mp hpair').1 _ h')
          exact absurd hpsc
            (fun hc => colLt_colLe_absurd (colLt_le_trans h1 hxp) hc)
    · rw [if_neg h1]
      by_cases h2 : colLt best.2 x.2
      · rw [if_pos h2]
        rcases List.mem_cons.mp hp with h | h
        · rw [h]
          exact colLe_trans (colLt_le h2) (walkBest_col_ge sc xs x hpair')
        · exact ih x hpair' p h hpsc
      · rw [if_neg h2]
        have hbx : colLe best.2 x.2 = true :=
          locLe_colLe (hbest x (List.mem_cons_self _ _))
        have hxb : colLe x.2 best.2 = true := colLe_of_not_lt h2
        have heq : best.2 = x.2 := colLe_antisymm hbx hxb
        have hpair'' : (best :: xs).Pairwise (fun a b => locLe a b = true) :=
          List.pairwise_cons.mpr
            ⟨fun b hb => hbest b (List.mem_cons_of_mem _ hb),
             (List.pairwise_cons.mp hpair').2⟩
        rcases List.mem_cons.mp hp with h | h
        · exact ih best hpair'' p (h ▸ List.mem_cons_self _ _) hpsc
        · rcases List.mem_cons.mp h with h' | h'
          · have : colLe best.2 sc = true := by rw [heq, ← h']; exact hpsc
            have hb := ih best hpair'' best (List.mem_cons_self _ _) this
            rw [h', ← heq]
            exact hb
          · exact ih best hpair'' p (List.mem_cons_of_mem _ h') hpsc

/-- On a sorted candidate list, the walk's result has the smallest address
among candidates sharing its column. -/
lemma walkBest_addr_min (sc : ColType) :
    ∀ (l : List (Nat × ColType)) (best : Nat × ColType),
      (best :: l).Pairwise (fun a b => locLe a b = true) →
      ∀ p ∈ best :: l, p.2 = (walkBest sc best l).2 →
        (walkBest sc best l).1 ≤ p.1 := by
  intro l
  induction l with
  | nil =>
    intro best _ p hp _
    rcases List.mem_cons.mp hp with h | h
    · rw [h]; exact Nat.le_refl _
    · exact absurd h (List.not_mem_nil p)
  | cons x xs ih =>
    intro best hpair p hp heq
    obtain ⟨hbest, hpair'⟩ := List.pairwise_cons.mp hpair
    unfold walkBest at heq ⊢
    by_cases h1 : colLt sc x.2
    · rw [if_pos h1] at heq ⊢
      rcases List.mem_cons.mp hp with h | h
      · rw [h]
      · exact locLe_addr (hbest p h) heq.symm
    · rw [if_neg h1] at heq ⊢
      by_cases h2 : colLt best.2 x.2
      · rw [if_pos h2] at heq ⊢
        rcases List.mem_cons.mp hp with h | h
        · exfalso
          have hxw : colLe x.2 (walkBest sc x xs).2 = true :=
            walkBest_col_ge sc xs x hpair'
          have hbw : colLt best.2 (walkBest sc x xs).2 = true :=
            colLt_le_trans h2 hxw
          rw [← h, ← heq] at hbw
          rw [colLt_irrefl] at hbw
          exact Bool.noConfusion hbw
        · exact ih x hpair' p h heq
      · rw [if_neg h2] at heq ⊢
        have hbx : colLe best.2 x.2 = true :=
          locLe_colLe (hbest x (List.mem_cons_self _ _))
        have hxb : colLe x.2 best.2 = true := colLe_of_not_lt h2
        have hcol : best.2 = x.2 := colLe_antisymm hbx hxb
        have hpair'' : (best :: xs).Pairwise (fun a b => locLe a b = true) :=
          List.pairwise_cons.mpr
            ⟨fun b hb => hbest b (List.mem_cons_of_mem _ hb),
             (List.pairwise_cons.mp hpair').2⟩
        rcases List.mem_cons.mp hp with h | h
        · exact ih best hpair'' p (h ▸ List.mem_cons_self _ _) heq
        · rcases List.mem_cons.mp h with h' | h'
          · have hbw : best.2 = (walkBest sc best xs).2 := by
              rw [hcol, ← h']; exact heq
            have hwb : (walkBest sc best xs).1 ≤ best.1 :=
              ih best hpair'' best (List.mem_cons_self _ _) hbw
            have hbx1 : best.1 ≤ x.1 :=
              locLe_addr (hbest x (List.mem_cons_self _ _)) hcol
            rw [h']
            omega
          · exact ih best hpair'' p (List.mem_cons_of_mem _ h') heq

lemma locLe_trans_all : ∀ (a b c : Nat × ColType),
    locLe a b = true → locLe b c = true → locLe a c = true :=
  fun _ _ _ h1 h2 => locLe_trans h1 h2

/-- C5: the breakpoint query tie-break policy. No candidate → nothing;
one candidate → its address; several candidates and no requested column →
the lexicographically (column, address)-smallest candidate; several
candidates and a requested column (given some candidate's column is at
most the request) → the candidate with the largest column not exceeding
the request, smallest address among equal columns. -/
theorem breakpoint_tie_break (locations : List (Nat × ColType)) (column : Option Nat) :
    (locations = [] → getBreakpointLocation locations column = none) ∧
    (∀ l, locations = [l] → getBreakpointLocation locations column = some l.1) ∧
    (2 ≤ locations.length → column = none →
      ∃ a c, getBreakpointLocation locations column = some a ∧
        (a, c) ∈ locations ∧ ∀ p ∈ locations, locLe (a, c) p = true) ∧
    (∀ searchCol, 2 ≤ locations.length → column = some searchCol →
      (∃ p ∈ locations, colLe p.2 (requestedCol searchCol) = true) →
      ∃ a c, getBreakpointLocation locations column = some a ∧
        (a, c) ∈ locations ∧
        colLe c (requestedCol searchCol) = true ∧
        (∀ p ∈ locations, colLe p.2 (requestedCol searchCol) = true →
          colLe p.2 c = true) ∧
        (∀ p ∈ locations, p.2 = c → a ≤ p.1)) := by
  refine ⟨?_, ?_, ?_, ?_⟩
  · intro h; subst h; rfl
  · intro l h; subst h; rfl
  · intro hlen hcol
    subst hcol
    rcases locations with _ | ⟨x, _ | ⟨y, zs⟩⟩
    · simp at hlen
    · simp at hlen
    · have hsorted : ((x :: y :: zs).mergeSort locLe).Pairwise
          (fun a b => locLe a b = true) :=
        List.sorted_mergeSort locLe_trans_all locLe_total (x :: y :: zs)
      have hred : getBreakpointLocation (x :: y :: zs) none =
          ((x :: y :: zs).mergeSort locLe).head?.map Prod.fst := rfl
      cases hs : (x :: y :: zs).mergeSort locLe with
      | nil =>
        exfalso
        have hlen2 := (List.mergeSort_perm (x :: y :: zs) locLe).length_eq
        rw [hs] at hlen2
        simp at hlen2
      | cons s0 stail =>
        rw [hs] at hsorted
        refine ⟨s0.1, s0.2, ?_, ?_, ?_⟩
        · rw [hred, hs]; rfl
        · rw [Prod.mk.eta]
          have hmem : s0 ∈ (x :: y :: zs).mergeSort locLe := by
            rw [hs]; exact List.mem_cons_self _ _
          simpa using hmem
        · intro p hp
          rw [Prod.mk.eta]
          have hp' : p ∈ s0 :: stail := by
            rw [← hs]; simpa using hp
          rcases List.mem_cons.mp hp' with he | ht
          · rw [he]; exact locLe_refl _
          · exact (List.pairwise_cons.mp hsorted).1 p ht
  · intro searchCol hlen hcol hex
    subst hcol
    rcases locations with _ | ⟨x, _ | ⟨y, zs⟩⟩
    · simp at hlen
    · simp at hlen
    · have hsorted : ((x :: y :: zs).mergeSort locLe).Pairwise
          (fun a b => locLe a b = true) :=
        List.sorted_mergeSort locLe_trans_all locLe_total (x :: y :: zs)
      have hred : getBreakpointLocation (x :: y :: zs) (some searchCol) =
          (match (x :: y :: zs).mergeSort locLe with
            | [] => none
            | best :: rest =>
              some (walkBest (requestedCol searchCol) best rest).1) := rfl
      cases hs : (x :: y :: zs).mergeSort locLe with
      | nil =>
        exfalso
        have hlen2 := (List.mergeSort_perm (x :: y :: zs) locLe).length_eq
        rw [hs] at hlen2
        simp at hlen2
      | cons s0 stail =>
        rw [hs] at hsorted
        have hs0le : colLe s0.2 (requestedCol searchCol) = true := by
          rcases hex with ⟨p, hp, hpc⟩
          have hp' : p ∈ s0 :: stail := by
            rw [← hs]; simpa using hp
          rcases List.mem_cons.mp hp' with he | ht
          · rw [← he]; exact hpc
          · exact colLe_trans
              (locLe_colLe ((List.pairwise_cons.mp hsorted).1 p ht)) hpc
        refine ⟨(walkBest (requestedCol searchCol) s0 stail).1,
          (walkBest (requestedCol searchCol) s0 stail).2, ?_, ?_, ?_, ?_, ?_⟩
        · rw [hred, hs]
        · rw [Prod.mk.eta]
          have hmem : walkBest (requestedCol searchCol) s0 stail ∈
              (x :: y :: zs).mergeSort locLe := by
            rw [hs]; exact walkBest_mem _ stail s0
          simpa using hmem
        · exact walkBest_col_le _ stail s0 hs0le
        · intro p hp hpc
          have hp' : p ∈ s0 :: stail := by
            rw [← hs]; simpa using hp
          exact walkBest_col_max _ stail s0 hsorted p hp' hpc
        · intro p hp heq
          have hp' : p ∈ s0 :: stail := by
            rw [← hs]; simpa using hp
          exact walkBest_addr_min _ stail s0 hsorted p hp' heq

/-- Witness for C5: candidates (30, col 5), (10, col 2), (20, col 2) and
requested column 4: the returned candidate is address 10 at column 2. -/
theorem breakpoint_tie_break_witness :
    2 ≤ w5locs.length ∧
    (∃ p ∈ w5locs, colLe p.2 (requestedCol 4) = true) ∧
    (∃ a c, getBreakpointLocation w5locs (some 4) = some a ∧
      (a, c) ∈ w5locs ∧
      colLe c (requestedCol 4) = true ∧
      (∀ p ∈ w5locs, colLe p.2 (requestedCol 4) = true → colLe p.2 c = true) ∧
      (∀ p ∈ w5locs, p.2 = c → a ≤ p.1)) :=
  ⟨by decide, by decide,
    (breakpoint_tie_break w5locs (some 4)).2.2.2 4 (by decide) rfl (by decide)⟩

end ProbeRs

